import Mathlib

/-!
# Verification of the sentient-brain indexing pipeline

A shallow embedding of the core indexing pipeline of the
`sentient-brain-py-server` code base, together with theorems settling the
behavioural claims about it.  The embedded components are:

* the Python source parser (`src/parsers/python_parser.py`),
* the parser registry and the extension routing (`src/parsers/registry.py`,
  `src/parsers/typescript_parser.py`),
* the embedding providers (`src/embedding/gemini.py`, `src/embedding/local_hf.py`),
* the graph/vector persistence and the per-file indexing orchestration
  (`src/services/code_graph_service.py`),
* the reconciliation pass `backpopulate_missing_chunks`,
* the filesystem watcher's event filtering (`src/services/file_watcher.py`).

External effects (the CPython `ast.parse` front end, the embedding model, the
filesystem, UUID generation) enter as explicit oracle parameters; the Python
data structures are modelled with insertion-ordered association lists, which is
exactly the behaviour of a CPython `dict`.  All definitions are executable so
that every concrete scenario can be settled by `decide`.
-/

/-! ## Character-level string utilities

Lean's built-in `String` functions frequently do not reduce inside the kernel,
so the Python string operations used by the pipeline (`str.split`,
`str.splitlines`, `str.lower`, `os.path.splitext`, `pathlib` components,
`fnmatch`) are implemented here over `List Char` and wrapped for `String`.
-/

/-- Embeds `str.split(sep)` for a one-character separator: split a character list at
every occurrence of `sep`.  Like Python's `split`, adjacent separators produce
empty fields and the result is never empty. -/
def charsSplitOn (sep : Char) : List Char → List (List Char)
  | [] => [[]]
  | c :: cs =>
    let r := charsSplitOn sep cs
    if c == sep then [] :: r
    else
      match r with
      | [] => [[c]]
      | h :: t => (c :: h) :: t

/-- String wrapper of `charsSplitOn`. -/
def pySplit (sep : Char) (s : String) : List String :=
  (charsSplitOn sep s.toList).map List.asString

/-- Embeds `str.splitlines()` restricted to the line terminators that can occur in the
sources handled by the pipeline: `\n`, `\r\n` and `\r`.  A trailing terminator
does not open a new (empty) final line, matching CPython. -/
def splitlinesChars : List Char → List (List Char)
  | [] => []
  | '\r' :: '\n' :: rest => [] :: splitlinesChars rest
  | '\n' :: rest => [] :: splitlinesChars rest
  | '\r' :: rest => [] :: splitlinesChars rest
  | c :: rest =>
    match splitlinesChars rest with
    | [] => [[c]]
    | h :: t => (c :: h) :: t

/-- Embeds `source_code.splitlines()` as a list of strings. -/
def pySplitlines (s : String) : List String :=
  (splitlinesChars s.toList).map List.asString

/-- Embeds `"\n".join(lines)`. -/
def pyJoinNewline : List String → String
  | [] => ""
  | [l] => l
  | l :: rest => l ++ "\n" ++ pyJoinNewline rest

/-- Embeds `str.lower()` (the extensions routed by the registry are ASCII, where
`Char.toLower` agrees with CPython). -/
def pyLower (s : String) : String :=
  (s.toList.map Char.toLower).asString

/-- Does the character list `pre` occur as a prefix of `cs`? -/
def charsPrefix : List Char → List Char → Bool
  | [], _ => true
  | _ :: _, [] => false
  | p :: ps, c :: cs => p == c && charsPrefix ps cs

/-- Embeds `s.startswith(pre)` over strings. -/
def pyStartsWith (s pre : String) : Bool :=
  charsPrefix pre.toList s.toList

/-- The suffix of `cs` that starts at its last `'.'`, when `cs` contains a dot
at all. -/
def afterLastDot : List Char → Option (List Char)
  | [] => none
  | '.' :: rest =>
    (match afterLastDot rest with
     | some e => some e
     | none => some ('.' :: rest))
  | _ :: rest => afterLastDot rest

/-- The extension component of `os.path.splitext(p)` on POSIX: the suffix of
the final path component beginning at its last dot, except that a leading run
of dots never starts an extension (`.bashrc` has none). -/
def splitextExt (p : String) : String :=
  let base := ((charsSplitOn '/' p.toList).getLastD [])
  let rest := base.dropWhile (fun c => c == '.')
  match afterLastDot rest with
  | some e => e.asString
  | none => ""

/-- Embeds `pathlib.PurePosixPath(p).suffix`: the suffix of the final component from
its last dot, provided that dot is not the component's first character. -/
def pathSuffix (p : String) : String :=
  let name := (charsSplitOn '/' p.toList).getLastD []
  match name.reverse.findIdx? (fun c => c == '.') with
  | none => ""
  | some rIdx =>
    let i := name.length - 1 - rIdx
    if 0 < i then (name.drop i).asString else ""

/-- Embeds `pathlib.PurePosixPath(p).parts`: the root marker `"/"` for an absolute
path followed by the non-empty components, with bare `"."` components
normalised away. -/
def pathPartsPy (p : String) : List String :=
  let comps := (pySplit '/' p).filter (fun c => c ≠ "" && c ≠ ".")
  match p.toList with
  | '/' :: _ => "/" :: comps
  | _ => comps

/-- Embeds `str(pathlib.PurePosixPath(p))`: the normalised textual form rebuilt from
the parts (an empty relative path prints as `"."`). -/
def pathStrPy (p : String) : String :=
  let comps := (pySplit '/' p).filter (fun c => c ≠ "" && c ≠ ".")
  match p.toList with
  | '/' :: _ => "/" ++ String.intercalate "/" comps
  | _ => if comps.isEmpty then "." else String.intercalate "/" comps

/-! ### `fnmatch.fnmatch`

The watcher's ignore patterns use only literal characters, `'?'` and the
wildcard `'*'` (no `[seq]` classes), and on POSIX `fnmatch.fnmatch` performs no
case normalisation.  For that pattern language, matching is decided by
splitting the pattern at its stars: the name must start with the first

segment, end with the last one, and contain the middle segments in order; a
leftmost-first search for each fixed-length segment is complete because an
earlier occurrence always leaves a larger remainder for the segments after
it. -/

/-- One pattern character against one name character (`'?'` matches any). -/
def segMatchChar (p c : Char) : Bool :=
  p == '?' || p == c

/-- Does the star-free pattern segment match a prefix of the name? -/
def segPrefixMatch : List Char → List Char → Bool
  | [], _ => true
  | _ :: _, [] => false
  | p :: ps, c :: cs => segMatchChar p c && segPrefixMatch ps cs

/-- Does the star-free pattern segment match a suffix of the name? -/
def segSuffixMatch (seg s : List Char) : Bool :=
  decide (seg.length ≤ s.length) && segPrefixMatch seg (s.drop (s.length - seg.length))

/-- Drop characters of `s` until the star-free segment `seg` matches a prefix;
return the remainder after that first match, or `none`. -/
def findSegRem (seg : List Char) : List Char → Option (List Char)
  | [] => if segPrefixMatch seg [] then some [] else none
  | c :: t =>
    if segPrefixMatch seg (c :: t) then some ((c :: t).drop seg.length)
    else findSegRem seg t

/-- Match the star-separated segments that follow the first one: middle
segments may appear anywhere in order, the final segment must close the
name. -/
def matchSegsAfterStar : List (List Char) → List Char → Bool
  | [], _ => true
  | [seg], s => segSuffixMatch seg s
  | seg :: rest, s =>
    match findSegRem seg s with
    | none => false
    | some rem => matchSegsAfterStar rest rem

/-- Embeds `fnmatch.fnmatch(name, pat)` for patterns built from literals, `'?'` and
`'*'`. -/
def fnmatchPy (name pat : String) : Bool :=
  match charsSplitOn '*' pat.toList with
  | [] => false
  | [seg] => seg.length == name.toList.length && segPrefixMatch seg name.toList
  | seg :: rest =>
    segPrefixMatch seg name.toList && matchSegsAfterStar rest (name.toList.drop seg.length)

/-! ## Graph data model (`src/models/graph_models.py`)

`CodeNode.metadata` and `CodeRelationship.metadata` are open dictionaries that
the parsers always leave empty (`{}`); persistence excludes node metadata and
skips the relationship property clause when it is empty, so the field is
omitted from the embedding. -/

/-- Embeds `NodeType` exactly as declared in `graph_models.py`.  Note that there is no
`BLOCK` member even though `code_graph_service.py` mentions one. -/
inductive NodeType where
  | FILE
  | CLASS
  | FUNCTION
  | METHOD
  | IMPORT
  | VARIABLE
deriving DecidableEq, Repr

/-- The `.value` string of a `NodeType` member. -/
def nodeTypeValue : NodeType → String
  | NodeType.FILE => "FILE"
  | NodeType.CLASS => "CLASS"
  | NodeType.FUNCTION => "FUNCTION"
  | NodeType.METHOD => "METHOD"
  | NodeType.IMPORT => "IMPORT"
  | NodeType.VARIABLE => "VARIABLE"

/-- Embeds `RelationshipType` as declared in `graph_models.py`. -/
inductive RelationshipType where
  | CONTAINS
  | IMPORTS
  | CALLS
  | DEFINES
  | INSTANTIATES
deriving DecidableEq, Repr

/-- The `.value` string of a `RelationshipType` member. -/
def relTypeValue : RelationshipType → String
  | RelationshipType.CONTAINS => "CONTAINS"
  | RelationshipType.IMPORTS => "IMPORTS"
  | RelationshipType.CALLS => "CALLS"
  | RelationshipType.DEFINES => "DEFINES"
  | RelationshipType.INSTANTIATES => "INSTANTIATES"

/-- Embeds `CodeNode` (metadata field omitted, see above). -/
structure CodeNode where
  id : String
  node_type : NodeType
  name : String
  start_line : Nat
  end_line : Nat
deriving DecidableEq, Repr

/-- Embeds `CodeRelationship` (metadata field omitted, see above). -/
structure CodeRelationship where
  source_id : String
  target_id : String
  type : RelationshipType
deriving DecidableEq, Repr

/-! ## Python AST fragment (`ast` module)

Only the node kinds that `_PythonCodeGraphVisitor` dispatches on are
distinguished; every other statement falls into `other`, whose children are
visited by `ast.NodeVisitor.generic_visit` with no state change (this also
covers `async def`, for which the visitor defines no handler).  Statements can
only occur inside statement bodies, so each construct carries the list of its
body statement children; expression children can contain no `ClassDef`,
`FunctionDef` or import statement and are irrelevant to the visitor.  A
`PyBody` is a statement list; it is a separate inductive (rather than
`List PyStmt`) so that the visitor is structurally recursive and computable by
the kernel. -/

mutual
/-- A Python statement as seen by the visitor. -/
inductive PyStmt where
  | classDef (name : String) (lineno endLineno : Nat) (body : PyBody)
  | functionDef (name : String) (lineno endLineno : Nat) (body : PyBody)
  | importStmt (names : List String) (lineno : Nat)
  | importFrom (module : Option String) (names : List String) (lineno : Nat)
  | other (children : PyBody)

/-- A sequence of Python statements. -/
inductive PyBody where
  | nil
  | cons (s : PyStmt) (rest : PyBody)
end

/-! ## The visitor state

`self.nodes` is a CPython `dict`, i.e. an insertion-ordered association list
in which assigning to an existing key replaces the value in place; the scope
stack is kept with its top at the head (Python appends at the end and reads
`[-1]`).  Two ghost fields instrument the run without influencing it:
`collision` records whether any node write hit an already-present key, and
`writeLog` records every node write in chronological order. -/

/-- Insertion-ordered dictionary of nodes keyed by id. -/
abbrev NodeDict := List (String × CodeNode)

/-- Is `k` a key of the dictionary? -/
def containsKey (l : NodeDict) (k : String) : Bool :=
  l.any (fun p => p.1 == k)

/-- Embeds `self.nodes.get(k)`. -/
def lookupKey (l : NodeDict) (k : String) : Option CodeNode :=
  (l.find? (fun p => p.1 == k)).map (fun p => p.2)

/-- Position of key `k` in insertion order (`l.length` when absent). -/
def idxOfKey (l : NodeDict) (k : String) : Nat :=
  l.findIdx (fun p => p.1 == k)

/-- Replace the entry at key `k` (used by `dictInsert` when the key exists). -/
def replaceEntry (k : String) (v : CodeNode) (p : String × CodeNode) : String × CodeNode :=
  if p.1 == k then (k, v) else p

/-- Embeds `self.nodes[k] = v`: replace in place when the key exists, else append. -/
def dictInsert (l : NodeDict) (k : String) (v : CodeNode) : NodeDict :=
  if containsKey l k then l.map (replaceEntry k v)
  else l ++ [(k, v)]

/-- The mutable state of `_PythonCodeGraphVisitor`. -/
structure VisitorState where
  nodes : NodeDict
  relationships : List CodeRelationship
  scope_stack : List String
  collision : Bool
  writeLog : NodeDict
deriving DecidableEq, Repr

/-- Embeds `self.nodes[node.id] = node`, with the ghost fields updated. -/
def writeNode (st : VisitorState) (v : CodeNode) : VisitorState :=
  { st with
    nodes := dictInsert st.nodes v.id v
    collision := st.collision || containsKey st.nodes v.id
    writeLog := st.writeLog ++ [(v.id, v)] }

/-- Embeds `self.relationships.append(r)`. -/
def addRel (st : VisitorState) (r : CodeRelationship) : VisitorState :=
  { st with relationships := st.relationships ++ [r] }

/-- One `visit_Import` / `visit_ImportFrom` loop iteration: create the import
node and the IMPORTS edge from the file node. -/
def importOne (fp : String) (lineno : Nat) (st : VisitorState) (nm : String) : VisitorState :=
  addRel
    (writeNode st
      { id := "import:" ++ nm, node_type := NodeType.IMPORT, name := nm,
        start_line := lineno, end_line := lineno })
    { source_id := fp, target_id := "import:" ++ nm, type := RelationshipType.IMPORTS }

mutual
/-- Embeds `ast.NodeVisitor.visit` dispatched on one statement, as implemented by
`_PythonCodeGraphVisitor` in `python_parser.py`. -/
def visitStmt (fp : String) : PyStmt → VisitorState → VisitorState
  | PyStmt.classDef name lineno endLineno body, st =>
      -- visit_ClassDef: the id is file-path prefixed, the CONTAINS edge comes
      -- from the current scope top; push, recurse into the body, pop.
      let class_node_id := fp ++ ":" ++ name
      let parent_id := st.scope_stack.headD ""
      let st1 :=
        addRel
          (writeNode st
            { id := class_node_id, node_type := NodeType.CLASS, name := name,
              start_line := lineno, end_line := endLineno })
          { source_id := parent_id, target_id := class_node_id,
            type := RelationshipType.CONTAINS }
      let st2 := visitBody fp body { st1 with scope_stack := class_node_id :: st1.scope_stack }
      { st2 with scope_stack := st2.scope_stack.tail }
  | PyStmt.functionDef name lineno endLineno body, st =>
      -- visit_FunctionDef: METHOD iff the scope top is a CLASS node, in which
      -- case the id is parent-prefixed, otherwise file-path prefixed.
      let parent_id := st.scope_stack.headD ""
      let parent_node := lookupKey st.nodes parent_id
      let is_method :=
        match parent_node with
        | some p => p.node_type == NodeType.CLASS
        | none => false
      let node_type := if is_method then NodeType.METHOD else NodeType.FUNCTION
      let function_node_id := if is_method then parent_id ++ ":" ++ name else fp ++ ":" ++ name
      let st1 :=
        addRel
          (writeNode st
            { id := function_node_id, node_type := node_type, name := name,
              start_line := lineno, end_line := endLineno })
          { source_id := parent_id, target_id := function_node_id,
            type := RelationshipType.CONTAINS }
      let st2 := visitBody fp body { st1 with scope_stack := function_node_id :: st1.scope_stack }
      { st2 with scope_stack := st2.scope_stack.tail }
  | PyStmt.importStmt names lineno, st =>
      -- visit_Import: one IMPORT node per alias, edge from the file node.
      names.foldl (importOne fp lineno) st
  | PyStmt.importFrom module names lineno, st =>
      -- visit_ImportFrom: module defaults to "." and prefixes each alias.
      let module_name := module.getD "."
      (names.map (fun aliasName => module_name ++ "." ++ aliasName)).foldl (importOne fp lineno) st
  | PyStmt.other children, st =>
      -- No handler: generic_visit recurses into the children unchanged.
      visitBody fp children st

/-- Visit a statement sequence in order. -/
def visitBody (fp : String) : PyBody → VisitorState → VisitorState
  | PyBody.nil, st => st
  | PyBody.cons s rest, st => visitBody fp rest (visitStmt fp s st)
end

/-- Embeds `file_path.split("/")[-1]`. -/
def pyBasename (fp : String) : String :=
  (pySplit '/' fp).getLastD fp

/-- The root FILE node written by `_PythonCodeGraphVisitor.__init__`. -/
def initFileNode (fp src : String) : CodeNode :=
  { id := fp, node_type := NodeType.FILE, name := pyBasename fp,
    start_line := 1, end_line := (pySplitlines src).length }

/-- The visitor state after `__init__`: the FILE node is stored and the scope
stack holds the file id. -/
def initVisitorState (fp src : String) : VisitorState :=
  { nodes := [(fp, initFileNode fp src)]
    relationships := []
    scope_stack := [fp]
    collision := false
    writeLog := [(fp, initFileNode fp src)] }

/-- Run the visitor over a parsed module body (visiting an `ast.Module` has no
handler, so `generic_visit` walks its statement list). -/
def runVisitor (fp src : String) (tree : PyBody) : VisitorState :=
  visitBody fp tree (initVisitorState fp src)

/-! ## `PythonParser.parse`

`ast.parse` is an external oracle; its outcome for the given source is passed
in as an `Except`.  CPython reports malformed source with `SyntaxError` (whose
subclasses `IndentationError` and `TabError` are included); resource
exhaustion aside, no other exception class is raised for invalid source.  The
`try` block catches exactly `SyntaxError`, so any other exception escapes the
parser. -/

/-- An exception escaping `ast.parse`. -/
inductive PyExc where
  | synError (msg : String)
  | otherError (msg : String)
deriving DecidableEq, Repr

/-- The printable message of an exception. -/
def pyExcMsg : PyExc → String
  | PyExc.synError m => m
  | PyExc.otherError m => m

/-- Embeds `PythonParser.parse`: run `ast.parse` (the supplied outcome), walk the
tree, and turn a `SyntaxError` into the empty result; other exceptions
propagate. -/
def pythonParserParse (fp src : String) (astResult : Except PyExc PyBody) :
    Except PyExc (List CodeNode × List CodeRelationship) :=
  match astResult with
  | Except.ok tree =>
      let visitor := runVisitor fp src tree
      Except.ok (visitor.nodes.map (fun p => p.2), visitor.relationships)
  | Except.error (PyExc.synError _) => Except.ok ([], [])
  | Except.error e => Except.error e

/-! ## Parser registry (`registry.py`, `typescript_parser.py`)

`ParserRegistry.__init__` instantiates only `PythonParser`; the TypeScript
parser exists in the code base but is never added to the registry list. -/

/-- The parser plugin classes present in the code base. -/
inductive ParserPlugin where
  | python
  | typescript
deriving DecidableEq, Repr

/-- Embeds `PythonParser.supports_extension`: `ext.lower() in {".py"}`. -/
def pythonSupportsExtension (ext : String) : Bool :=
  pyLower ext == ".py"

/-- Embeds `TypeScriptParser.supports_extension`:
`ext.lower() in {".ts", ".tsx", ".js", ".jsx", ".mjs", ".cjs"}`. -/
def typescriptSupportsExtension (ext : String) : Bool :=
  [".ts", ".tsx", ".js", ".jsx", ".mjs", ".cjs"].contains (pyLower ext)

/-- Dispatch `supports_extension` over a plugin. -/
def supportsExtension : ParserPlugin → String → Bool
  | ParserPlugin.python, ext => pythonSupportsExtension ext
  | ParserPlugin.typescript, ext => typescriptSupportsExtension ext

/-- Embeds `ParserRegistry.__init__`: `self._parsers = [PythonParser()]`. -/
def registryParsers : List ParserPlugin :=
  [ParserPlugin.python]

/-- Embeds `ParserRegistry.get_parser_for_ext`: first registered plugin whose
`supports_extension` accepts the extension, else `None`. -/
def getParserForExt (ext : String) : Option ParserPlugin :=
  registryParsers.find? (fun p => supportsExtension p ext)

/-! ## Embedding providers (`embedding/gemini.py`, `embedding/local_hf.py`)

Vectors are modelled as integer lists; their numeric content is irrelevant to
every claim.  The remote API call and the local model's `encode` are oracles
that either return a batch of vectors or fail. -/

/-- An embedding vector. -/
abbrev EmbedVector := List Int

/-- Embeds `GeminiEmbedder.embed`: the whole call is wrapped in `try`/`except`; any
provider failure yields one empty vector per input instead of an exception.
On success the response carries one embedding per content, in order. -/
def geminiEmbed (apiEmbedContent : List String → Except String (List EmbedVector))
    (texts : List String) : List EmbedVector :=
  match apiEmbedContent texts with
  | Except.ok embeddings => embeddings
  | Except.error _ => texts.map (fun _ => [])

/-- Embeds `LocalHFEmbedder.embed`: `self.model.encode(texts).tolist()` with no
exception handling, so a provider-level failure propagates to the caller. -/
def localHFEmbed (modelEncode : List String → Except String (List EmbedVector))
    (texts : List String) : Except String (List EmbedVector) :=
  modelEncode texts

/-! ## Graph store (`db/neo4j_driver.py` consumer side)

The property-graph store is modelled at the level of the contract the service
relies on: nodes are property maps addressed by the `id` property
(`MERGE (n {id: $id})`), relationships are merged on
`(source, target, type)`.  Property values are strings, naturals or string
lists (the flattened file metadata's `tags`). -/

/-- A property value stored on a graph node. -/
inductive PropVal where
  | s (v : String)
  | n (v : Nat)
  | ls (v : List String)
deriving DecidableEq, Repr

/-- An insertion-ordered property map. -/
abbrev Props := List (String × PropVal)

/-- Read a property (`n.prop` in Cypher yields `null` when absent). -/
def propsGet (ps : Props) (k : String) : Option PropVal :=
  (ps.find? (fun p => p.1 == k)).map (fun p => p.2)

/-- Set one property, replacing in place when present. -/
def propsSet (ps : Props) (k : String) (v : PropVal) : Props :=
  if ps.any (fun p => p.1 == k) then ps.map (fun p => if p.1 == k then (k, v) else p)
  else ps ++ [(k, v)]

/-- Embeds `SET n += $props`: fold the new entries over the existing map. -/
def propsUpdate (old new_ : Props) : Props :=
  new_.foldl (fun acc p => propsSet acc p.1 p.2) old

/-- A stored graph node: its `id` property and the remaining properties. -/
structure StoredNode where
  id : String
  props : Props
deriving DecidableEq, Repr

/-- A stored relationship, keyed by source, target and type label (the `type`
property set by the MERGE always equals the label). -/
structure StoredEdge where
  source_id : String
  target_id : String
  type : String
deriving DecidableEq, Repr

/-- The property-graph store. -/
structure GraphStore where
  nodes : List StoredNode
  edges : List StoredEdge
deriving DecidableEq, Repr

/-- Embeds `node.model_dump(exclude={"id", "node_type", "metadata"})`, plus the
flattened file metadata for FILE nodes, plus the `node_type` set by the MERGE
query.  Note that the dumped fields are exactly `name`, `start_line` and
`end_line`: `CodeNode` has no `file_path` field, so no `file_path` property is
ever written. -/
def persistedProps (node : CodeNode) (file_metadata : Props) : Props :=
  let base : Props :=
    [("name", PropVal.s node.name),
     ("start_line", PropVal.n node.start_line),
     ("end_line", PropVal.n node.end_line)]
  let base :=
    if node.node_type == NodeType.FILE then propsUpdate base file_metadata else base
  propsUpdate base [("node_type", PropVal.s (nodeTypeValue node.node_type))]

/-- Embeds `MERGE (n {id: $id}) SET n += $props, n.node_type = $node_type`: update the
matched node's properties in place, or create it. -/
def mergeNode (g : GraphStore) (node : CodeNode) (file_metadata : Props) : GraphStore :=
  if g.nodes.any (fun sn => sn.id == node.id) then
    { g with
      nodes := g.nodes.map (fun sn =>
        if sn.id == node.id then { sn with props := propsUpdate sn.props (persistedProps node file_metadata) }
        else sn) }
  else
    { g with nodes := g.nodes ++ [{ id := node.id, props := persistedProps node file_metadata }] }

/-- Embeds `MATCH (a {id: $source_id}), (b {id: $target_id}) MERGE (a)-[r:T {type}]->(b)`:
when either endpoint is missing the MATCH produces no row and nothing is
created; otherwise the edge is created unless one with the same key exists.
The parsers leave relationship metadata empty, so the optional `SET r +=`
clause never runs. -/
def mergeEdge (g : GraphStore) (rel : CodeRelationship) : GraphStore :=
  if g.nodes.any (fun sn => sn.id == rel.source_id)
      && g.nodes.any (fun sn => sn.id == rel.target_id) then
    let e : StoredEdge :=
      { source_id := rel.source_id, target_id := rel.target_id, type := relTypeValue rel.type }
    if g.edges.contains e then g else { g with edges := g.edges ++ [e] }
  else g

/-- Embeds `CodeGraphService.persist_graph`: upsert every node, then every
relationship. -/
def persistGraph (g : GraphStore) (nodes : List CodeNode)
    (relationships : List CodeRelationship) (file_metadata : Props) : GraphStore :=
  let g1 := nodes.foldl (fun acc node => mergeNode acc node file_metadata) g
  relationships.foldl mergeEdge g1

/-! ## Vector store (`db/weaviate_client.py` consumer side) -/

/-- A `CodeChunk` record in the vector store. -/
structure Chunk where
  uuid : String
  source_id : String
  file_path : String
  node_type : String
  name : String
  start_line : Nat
  end_line : Nat
  content : String
  vector : EmbedVector
deriving DecidableEq, Repr

/-- The vector store's `CodeChunk` collection. -/
structure VectorStore where
  chunks : List Chunk
deriving DecidableEq, Repr

/-! ## `CodeGraphService.sync_code_chunks_to_weaviate`

The embedding-candidate filter is the comprehension
`[n for n in nodes if n.node_type in [NodeType.CLASS, NodeType.FUNCTION,
NodeType.METHOD, NodeType.BLOCK]]`.  `graph_models.NodeType` declares only
`FILE`, `CLASS`, `FUNCTION`, `METHOD`, `IMPORT` and `VARIABLE`: looking up
`NodeType.BLOCK` raises `AttributeError`.  The membership list is evaluated on
the first iteration of the comprehension, so the call raises before computing
any candidate whenever `nodes` is non-empty; with an empty node list the
comprehension never evaluates the condition, `nodes_to_embed` is empty and the
function returns at the `if not nodes_to_embed` guard.  The batch embedding
and the per-candidate insert loop further down are therefore unreachable and
are not modelled. -/

/-- The exception message of the failed enum member lookup. -/
def nodeTypeBlockError : String :=
  "AttributeError: BLOCK"

/-- Embeds `sync_code_chunks_to_weaviate`, returning the (unchanged) store and the
outcome of the call. -/
def syncCodeChunksToWeaviate (fp src : String) (nodes : List CodeNode)
    (v : VectorStore) : VectorStore × Except String Unit :=
  match fp, src, nodes with
  | _, _, [] => (v, Except.ok ())
  | _, _, _ :: _ => (v, Except.error nodeTypeBlockError)

/-! ## `CodeGraphService.process_file`

Metadata extraction (`MetadataExtractorService.extract_metadata`) classifies
the path against a YAML rule file; its result only flows into the FILE node's
properties, so it enters as the `file_metadata` argument.  The optional commit
linking is skipped because no commit hash is supplied in the flows under
study.  `parse_code_to_graph` routes through the registry; an extension with
no parser yields the empty result, which makes `process_file` return without
side effects. -/

/-- Embeds `CodeGraphService.parse_code_to_graph`. -/
def parseCodeToGraph (astOf : String → Except PyExc PyBody) (fp src : String) :
    Except PyExc (List CodeNode × List CodeRelationship) :=
  match getParserForExt (splitextExt fp) with
  | none => Except.ok ([], [])
  | some ParserPlugin.python => pythonParserParse fp src (astOf src)
  | some ParserPlugin.typescript =>
      -- Unreachable through the default registry, which never registers the
      -- TypeScript plugin; its parse routine is therefore not modelled.
      Except.ok ([], [])

/-- The combined persistent state touched by the indexing service. -/
structure SystemState where
  graph : GraphStore
  vector : VectorStore
deriving DecidableEq, Repr

/-- Embeds `CodeGraphService.process_file` without commit information: extract
metadata, parse, and if the parse produced anything persist the graph and sync
the chunks.  The second component reports whether the call returned normally
or raised. -/
def processFile (astOf : String → Except PyExc PyBody) (file_metadata : Props)
    (fp src : String) (st : SystemState) : SystemState × Except String Unit :=
  match parseCodeToGraph astOf fp src with
  | Except.error e => (st, Except.error (pyExcMsg e))
  | Except.ok (nodes, relationships) =>
    if nodes.isEmpty && relationships.isEmpty then (st, Except.ok ())
    else
      let g := persistGraph st.graph nodes relationships file_metadata
      let (v, res) := syncCodeChunksToWeaviate fp src nodes st.vector
      ({ graph := g, vector := v }, res)

/-! ## `CodeGraphService.backpopulate_missing_chunks`

The pass reads all `source_id` values from the vector store (via
`fetch_objects(limit=100000)`), queries the graph store for nodes whose
`node_type` property is CLASS, FUNCTION or METHOD, and for every id not yet in
the vector store re-reads `n.file_path` from disk, slices, embeds and inserts
a chunk.  The whole per-record body runs inside `try`/`except`, so any failure
(a `null` file path — `open(None)` raises `TypeError` —, a missing file, an
empty embedding batch) skips that record. -/

/-- Embeds `x or d` on an optional numeric property: `None` and `0` are falsy. -/
def pyOrNat (v : Option PropVal) (d : Nat) : Nat :=
  match v with
  | some (PropVal.n k) => if k == 0 then d else k
  | _ => d

/-- Read a `Nat` property with a default (used only to type the inserted chunk
record; in the pipeline the property is always present). -/
def propNatD (ps : Props) (k : String) (d : Nat) : Nat :=
  match propsGet ps k with
  | some (PropVal.n v) => v
  | _ => d

/-- Read a `String` property with a default. -/
def propStrD (ps : Props) (k : String) (d : String) : String :=
  match propsGet ps k with
  | some (PropVal.s v) => v
  | _ => d

/-- Embeds `n.node_type IN ['CLASS','FUNCTION','METHOD']`. -/
def isBackpopCandidate (sn : StoredNode) : Bool :=
  match propsGet sn.props "node_type" with
  | some (PropVal.s t) => t == "CLASS" || t == "FUNCTION" || t == "METHOD"
  | _ => false

/-- Process one missing record: returns the chunk to insert, or `none` when
the record is skipped by the `except` clause. -/
def backfillOne (fs : String → Option String)
    (embed : List String → List EmbedVector) (chunk_uuid : String)
    (sn : StoredNode) : Option Chunk :=
  match propsGet sn.props "file_path" with
  | some (PropVal.s fpath) =>
    match fs fpath with
    | some text =>
      let lines := pySplitlines text
      let start := pyOrNat (propsGet sn.props "start_line") 1 - 1
      let stop := min lines.length (pyOrNat (propsGet sn.props "end_line") (start + 1))
      let content := pyJoinNewline ((lines.drop start).take (stop - start))
      match embed [content] with
      | vector :: _ =>
        some
          { uuid := chunk_uuid, source_id := sn.id, file_path := fpath,
            node_type := propStrD sn.props "node_type" "",
            name := propStrD sn.props "name" "",
            start_line := propNatD sn.props "start_line" 0,
            end_line := propNatD sn.props "end_line" 0,
            content := content, vector := vector }
      | [] => none
    | none => none
  | _ => none

/-- Embeds `backpopulate_missing_chunks`: the filesystem, the embedder and the UUID
generator are oracles; the result is the updated vector store. -/
def backpopulateMissingChunks (fs : String → Option String)
    (embed : List String → List EmbedVector) (uuidGen : Nat → String)
    (g : GraphStore) (v : VectorStore) : VectorStore :=
  let existing := (v.chunks.take 100000).map (fun c => c.source_id)
  let records := g.nodes.filter isBackpopCandidate
  let missing := records.filter (fun sn => !(existing.contains sn.id))
  let newChunks :=
    (missing.enum).filterMap (fun p => backfillOne fs embed (uuidGen p.1) p.2)
  { chunks := v.chunks ++ newChunks }

/-! ## Filesystem watcher (`services/file_watcher.py`)

`CodeChangeHandler.on_modified` and `on_created` follow the same shape: skip
directory events, skip ignored paths, then (and only then) look up a parser
for the extension; when one exists the file is read and dispatched to the
indexing service on a background thread.  The handler's observable behaviour
is modelled as the list of actions it performs past those guards. -/

/-- Embeds `DEFAULT_IGNORE_PATTERNS`. -/
def DEFAULT_IGNORE_PATTERNS : List String :=
  ["__pycache__", "*.pyc", ".pytest_cache", ".venv", "venv", "node_modules",
   ".git", ".gitignore", "*.log", ".env", ".env.*", "*.tmp", "*.temp",
   ".DS_Store", "Thumbs.db", "dist", "build", ".cache", ".mypy_cache",
   ".coverage", "htmlcov", "*.egg-info", ".tox", ".nox", "weaviate_data",
   "ollama_data"]

/-- Embeds `CodeChangeHandler._should_ignore_path`: some path component, or the full
normalised path, matches some ignore pattern. -/
def shouldIgnorePath (ignore_patterns : List String) (path : String) : Bool :=
  (pathPartsPy path).any (fun part => ignore_patterns.any (fun pat => fnmatchPy part pat))
    || ignore_patterns.any (fun pat => fnmatchPy (pathStrPy path) pat)

/-- A filesystem event as delivered by watchdog. -/
structure FsEvent where
  src_path : String
  is_directory : Bool
deriving DecidableEq, Repr

/-- An observable action of an event handler. -/
inductive WatchAction where
  | parserLookup (ext : String)
  | readFile (path : String)
  | dispatchIndex (path : String)
deriving DecidableEq, Repr

/-- The common body of `on_modified` and `on_created`: directory events and
ignored paths produce no action; otherwise the parser registry is consulted
and, when a parser exists, the file is read and dispatched. -/
def handlerActions (ignore_patterns : List String) (event : FsEvent) : List WatchAction :=
  if event.is_directory then []
  else if shouldIgnorePath ignore_patterns event.src_path then []
  else
    let ext := pathSuffix event.src_path
    match getParserForExt ext with
    | some _ =>
      [WatchAction.parserLookup ext, WatchAction.readFile event.src_path,
       WatchAction.dispatchIndex event.src_path]
    | none => [WatchAction.parserLookup ext]

/-- Embeds `CodeChangeHandler.on_modified`. -/
def onModified (ignore_patterns : List String) (event : FsEvent) : List WatchAction :=
  handlerActions ignore_patterns event

/-- Embeds `CodeChangeHandler.on_created`. -/
def onCreated (ignore_patterns : List String) (event : FsEvent) : List WatchAction :=
  handlerActions ignore_patterns event

/-! ## Concrete scenarios

`demo*`: the spec's ten-line file containing one class with one method, pushed
through the full `process_file` pipeline and then through the reconciliation
pass.  `shadow*` / `nested*` / `importCollide*`: small sources exhibiting the
id-collision behaviours of the parser.  `rich*`: a collision-free file
exercising every node kind, used as the witness input for the general
theorems. -/

def demoFilePath : String := "app.py"

/-- Ten lines: the class spans lines 1–3, lines 4–10 are blank. -/
def demoSource : String :=
  "class Greeter:\n    def greet(self):\n        return 1\n\n\n\n\n\n\n\n"

/-- The `ast.parse` result of `demoSource`: `ClassDef` at lines 1–3 containing
a `FunctionDef` at lines 2–3 whose body is a `Return` statement. -/
def demoAst : PyBody :=
  PyBody.cons
    (PyStmt.classDef "Greeter" 1 3
      (PyBody.cons
        (PyStmt.functionDef "greet" 2 3 (PyBody.cons (PyStmt.other PyBody.nil) PyBody.nil))
        PyBody.nil))
    PyBody.nil

/-- Embeds `ast.parse` oracle for the demo file. -/
def demoAstOracle : String → Except PyExc PyBody :=
  fun s => if s == demoSource then Except.ok demoAst else Except.error (PyExc.synError "invalid syntax")

/-- File metadata as produced by the metadata extractor for a Python path with
no matching domain/role rule. -/
def demoMetadata : Props :=
  [("language", PropVal.s "Python"), ("domain", PropVal.s "Unknown"),
   ("role", PropVal.s "Unknown"), ("tags", PropVal.ls [])]

/-- The parse result of the demo file. -/
def demoParsed : Except PyExc (List CodeNode × List CodeRelationship) :=
  pythonParserParse demoFilePath demoSource (Except.ok demoAst)

/-- The nodes of the demo parse. -/
def demoNodes : List CodeNode :=
  (demoParsed.toOption.getD ([], [])).1

/-- The relationships of the demo parse. -/
def demoRels : List CodeRelationship :=
  (demoParsed.toOption.getD ([], [])).2

/-- First `process_file` run on the demo file, from empty stores. -/
def demoRun1 : SystemState × Except String Unit :=
  processFile demoAstOracle demoMetadata demoFilePath demoSource
    { graph := { nodes := [], edges := [] }, vector := { chunks := [] } }

/-- Second `process_file` run on the unchanged demo file. -/
def demoRun2 : SystemState × Except String Unit :=
  processFile demoAstOracle demoMetadata demoFilePath demoSource demoRun1.1

/-- The graph store after indexing the demo file. -/
def demoGraph : GraphStore :=
  demoRun1.1.graph

/-- The disk, holding exactly the demo file. -/
def demoDisk : String → Option String :=
  fun p => if p == demoFilePath then some demoSource else none

/-- A total embedder: one (constant) vector per input text. -/
def demoEmbed : List String → List EmbedVector :=
  fun texts => texts.map (fun _ => [0])

/-- A UUID supply. -/
def demoUuidGen : Nat → String :=
  fun _ => "generated-uuid"

/-- A file whose nested class shadows the name of its enclosing class. -/
def shadowSource : String :=
  "class A:\n    class A:\n        pass\n"

def shadowAst : PyBody :=
  PyBody.cons
    (PyStmt.classDef "A" 1 3
      (PyBody.cons
        (PyStmt.classDef "A" 2 3 (PyBody.cons (PyStmt.other PyBody.nil) PyBody.nil))
        PyBody.nil))
    PyBody.nil

/-- The visitor state after parsing the shadowing file. -/
def shadowState : VisitorState :=
  runVisitor "f.py" shadowSource shadowAst

/-- A file with a class nested inside another class, distinct names. -/
def nestedSource : String :=
  "class A:\n    class B:\n        pass\n"

def nestedAst : PyBody :=
  PyBody.cons
    (PyStmt.classDef "A" 1 3
      (PyBody.cons
        (PyStmt.classDef "B" 2 3 (PyBody.cons (PyStmt.other PyBody.nil) PyBody.nil))
        PyBody.nil))
    PyBody.nil

/-- The visitor state after parsing the nested-class file. -/
def nestedState : VisitorState :=
  runVisitor "f.py" nestedSource nestedAst

/-- A file path that collides with the id of the import node its own source
produces. -/
def importCollidePath : String := "import:x"

def importCollideSource : String := "import x\n"

def importCollideAst : PyBody :=
  PyBody.cons (PyStmt.importStmt ["x"] 1) PyBody.nil

/-- An `ast.parse` oracle that rejects every source with a `SyntaxError`. -/
def badSynOracle : String → Except PyExc PyBody :=
  fun _ => Except.error (PyExc.synError "invalid syntax")

/-- A collision-free file exercising imports, a class, a method and a
function. -/
def richSource : String :=
  "import os\nfrom a import b\nclass C:\n    def m(self):\n        pass\ndef f():\n    pass\n"

def richAst : PyBody :=
  PyBody.cons (PyStmt.importStmt ["os"] 1)
    (PyBody.cons (PyStmt.importFrom (some "a") ["b"] 2)
      (PyBody.cons
        (PyStmt.classDef "C" 3 5
          (PyBody.cons
            (PyStmt.functionDef "m" 4 5 (PyBody.cons (PyStmt.other PyBody.nil) PyBody.nil))
            PyBody.nil))
        (PyBody.cons
          (PyStmt.functionDef "f" 6 7 (PyBody.cons (PyStmt.other PyBody.nil) PyBody.nil))
          PyBody.nil)))

/-- The visitor state after parsing the rich file. -/
def richState : VisitorState :=
  runVisitor "pkg/mod.py" richSource richAst








/-! ## The traversal invariant

The amended forms of the containment-tree and id-construction claims hold for
parses in which no node id is generated twice; the ghost `collision` flag of
the state records exactly that.  `visitorInv` is the inductive invariant
carried through the traversal:

* bookkeeping: the scope stack is never empty, every stack entry is a present
  key, is the file id or a strictly longer string, and is the file id or the
  target of an already-recorded CONTAINS edge;
* the dictionary keys are pairwise distinct, every stored node's `id` equals
  its key, and the key shape is determined by the node type (the FILE entry is
  the unmodified root node; CLASS and FUNCTION keys are `fp ++ ":" ++ name`;
  IMPORT keys are `"import:" ++ name`);
* the file entry survives at key `fp` whenever the file path cannot collide
  with an import id;
* the dictionary is the key-wise collapse of the chronological write log;
* and, provided no collision has occurred: CONTAINS targets are pairwise
  distinct, every CONTAINS edge runs from a present key to a later-created
  present key longer than the file id, every CONTAINS source is the file id or
  itself a CONTAINS target, and every METHOD entry is parent-prefixed by a
  CLASS entry to which it is linked by a CONTAINS edge. -/

/-- The CONTAINS relationships recorded so far. -/
def containsRels (st : VisitorState) : List CodeRelationship :=
  st.relationships.filter (fun r => r.type == RelationshipType.CONTAINS)

/-- The last value written to key `k` according to the write log. -/
def lastWriteVal (log : NodeDict) (k : String) : Option CodeNode :=
  ((log.filter (fun p => p.1 == k)).getLast?).map (fun p => p.2)

/-- The inductive invariant of the visitor traversal; `fnode` is the root FILE
node created by `__init__`. -/
def visitorInv (fp : String) (fnode : CodeNode) (st : VisitorState) : Prop :=
  st.scope_stack ≠ [] ∧
  (∀ s ∈ st.scope_stack, containsKey st.nodes s = true) ∧
  (∀ s ∈ st.scope_stack, s = fp ∨ fp.length < s.length) ∧
  (∀ s ∈ st.scope_stack, s = fp ∨ ∃ q ∈ containsRels st, q.target_id = s) ∧
  (st.nodes.map (fun p => p.1)).Nodup ∧
  (∀ p ∈ st.nodes, p.2.id = p.1 ∧
    (p.2.node_type = NodeType.FILE → p = (fp, fnode)) ∧
    (p.2.node_type = NodeType.CLASS → p.1 = fp ++ ":" ++ p.2.name) ∧
    (p.2.node_type = NodeType.FUNCTION → p.1 = fp ++ ":" ++ p.2.name) ∧
    (p.2.node_type = NodeType.IMPORT → p.1 = "import:" ++ p.2.name)) ∧
  (pyStartsWith fp "import:" = false → lookupKey st.nodes fp = some fnode) ∧
  (∀ k, lookupKey st.nodes k = lastWriteVal st.writeLog k) ∧
  (st.collision = false →
    ((containsRels st).map (fun r => r.target_id)).Nodup ∧
    (∀ r ∈ containsRels st,
      containsKey st.nodes r.source_id = true ∧
      containsKey st.nodes r.target_id = true ∧
      idxOfKey st.nodes r.source_id < idxOfKey st.nodes r.target_id ∧
      fp.length < r.target_id.length ∧
      (r.source_id = fp ∨ ∃ q ∈ containsRels st, q.target_id = r.source_id)) ∧
    (∀ p ∈ st.nodes, p.2.node_type = NodeType.METHOD →
      ∃ parent pv, (parent, pv) ∈ st.nodes ∧ pv.node_type = NodeType.CLASS ∧
        p.1 = parent ++ ":" ++ p.2.name ∧
        { source_id := parent, target_id := p.1,
          type := RelationshipType.CONTAINS } ∈ st.relationships))

/-! ## Dictionary lemmas -/

theorem replaceEntry_of_eq (k : String) (v : CodeNode) (p : String × CodeNode)
    (h : p.1 = k) : replaceEntry k v p = (k, v) := by
  simp [replaceEntry, beq_iff_eq.mpr h]

theorem replaceEntry_of_ne (k : String) (v : CodeNode) (p : String × CodeNode)
    (h : ¬p.1 = k) : replaceEntry k v p = p := by
  simp [replaceEntry, beq_eq_false_iff_ne.mpr h]

theorem replaceEntry_fst (k : String) (v : CodeNode) (p : String × CodeNode) :
    (replaceEntry k v p).1 = p.1 := by
  by_cases h : p.1 = k
  · rw [replaceEntry_of_eq k v p h, h]
  · rw [replaceEntry_of_ne k v p h]

theorem containsKey_true_iff (l : NodeDict) (k : String) :
    containsKey l k = true ↔ k ∈ l.map (fun p => p.1) := by
  induction l with
  | nil => simp [containsKey]
  | cons a t ih =>
    rw [containsKey] at *
    simp only [List.any_cons, List.map_cons, List.mem_cons, Bool.or_eq_true, ih]
    constructor
    · rintro (h | h)
      · exact Or.inl (beq_iff_eq.mp h).symm
      · exact Or.inr h
    · rintro (h | h)
      · exact Or.inl (beq_iff_eq.mpr h.symm)
      · exact Or.inr h

theorem containsKey_false_iff (l : NodeDict) (k : String) :
    containsKey l k = false ↔ k ∉ l.map (fun p => p.1) := by
  rw [← Bool.not_eq_true, not_iff_not]
  exact containsKey_true_iff l k

theorem dictInsert_of_contains (l : NodeDict) (k : String) (v : CodeNode)
    (h : containsKey l k = true) :
    dictInsert l k v = l.map (replaceEntry k v) := by
  simp [dictInsert, h]

theorem dictInsert_of_fresh (l : NodeDict) (k : String) (v : CodeNode)
    (h : containsKey l k = false) :
    dictInsert l k v = l ++ [(k, v)] := by
  simp [dictInsert, h]

theorem map_fst_replace (l : NodeDict) (k : String) (v : CodeNode) :
    (l.map (replaceEntry k v)).map (fun p => p.1) = l.map (fun p => p.1) := by
  induction l with
  | nil => rfl
  | cons a t ih =>
    simp only [List.map_cons, ih, replaceEntry_fst]

theorem containsKey_replace (l : NodeDict) (k : String) (v : CodeNode) (q : String) :
    containsKey (l.map (replaceEntry k v)) q = containsKey l q := by
  rw [containsKey, containsKey]
  induction l with
  | nil => rfl
  | cons a t ih =>
    simp only [List.map_cons, List.any_cons, ih, replaceEntry_fst]

theorem idxOfKey_replace (l : NodeDict) (k : String) (v : CodeNode) (q : String) :
    idxOfKey (l.map (replaceEntry k v)) q = idxOfKey l q := by
  rw [idxOfKey, idxOfKey]
  induction l with
  | nil => rfl
  | cons a t ih =>
    simp only [List.map_cons, List.findIdx_cons, ih, replaceEntry_fst]

theorem lookupKey_replace_other (l : NodeDict) (k : String) (v : CodeNode) (q : String)
    (hq : q ≠ k) :
    lookupKey (l.map (replaceEntry k v)) q = lookupKey l q := by
  rw [lookupKey, lookupKey]
  induction l with
  | nil => rfl
  | cons a t ih =>
    by_cases ha : a.1 = q
    · have h1 : ¬a.1 = k := fun e => hq (ha ▸ e)
      rw [List.map_cons, replaceEntry_of_ne k v a h1]
      have hb : (a.1 == q) = true := beq_iff_eq.mpr ha
      simp only [List.find?, hb]
    · have hb : (a.1 == q) = false := beq_eq_false_iff_ne.mpr ha
      rw [List.map_cons]
      simp only [List.find?, replaceEntry_fst, hb]
      exact ih

theorem mem_replace (l : NodeDict) (k : String) (v : CodeNode) (p : String × CodeNode)
    (hp : p ∈ l.map (replaceEntry k v)) :
    (p ∈ l ∧ ¬p.1 = k) ∨ p = (k, v) := by
  induction l with
  | nil => simp at hp
  | cons a t ih =>
    simp only [List.map_cons, List.mem_cons] at hp
    rcases hp with hp | hp
    · by_cases h : a.1 = k
      · right; rw [hp, replaceEntry_of_eq k v a h]
      · left
        rw [hp, replaceEntry_of_ne k v a h]
        exact ⟨List.mem_cons_self a t, h⟩
    · rcases ih hp with ⟨h1, h2⟩ | h1
      · exact Or.inl ⟨List.mem_cons_of_mem a h1, h2⟩
      · exact Or.inr h1

theorem containsKey_append (l1 l2 : NodeDict) (k : String) :
    containsKey (l1 ++ l2) k = (containsKey l1 k || containsKey l2 k) := by
  simp [containsKey]

theorem idxOfKey_append_left (l1 : NodeDict) (k : String)
    (h : containsKey l1 k = true) (l2 : NodeDict) :
    idxOfKey (l1 ++ l2) k = idxOfKey l1 k := by
  rw [idxOfKey, idxOfKey]
  induction l1 with
  | nil => simp [containsKey] at h
  | cons a t ih =>
    by_cases ha : a.1 = k
    · have hb : (a.1 == k) = true := beq_iff_eq.mpr ha
      simp [List.findIdx_cons, hb]
    · have hb : (a.1 == k) = false := beq_eq_false_iff_ne.mpr ha
      rw [containsKey] at h
      simp only [List.any_cons, hb, Bool.false_or] at h
      simp [List.findIdx_cons, hb, ih h]

theorem idxOfKey_append_fresh (l : NodeDict) (k : String) (v : CodeNode)
    (h : containsKey l k = false) :
    idxOfKey (l ++ [(k, v)]) k = l.length := by
  rw [idxOfKey]
  induction l with
  | nil => simp [List.findIdx_cons]
  | cons a t ih =>
    rw [containsKey] at h
    simp only [List.any_cons, Bool.or_eq_false_iff] at h
    simp [List.findIdx_cons, h.1, ih (by rw [containsKey]; exact h.2)]

theorem idxOfKey_lt_length (l : NodeDict) (k : String) (h : containsKey l k = true) :
    idxOfKey l k < l.length := by
  rw [idxOfKey]
  induction l with
  | nil => simp [containsKey] at h
  | cons a t ih =>
    by_cases ha : a.1 = k
    · have hb : (a.1 == k) = true := beq_iff_eq.mpr ha
      simp [List.findIdx_cons, hb]
    · have hb : (a.1 == k) = false := beq_eq_false_iff_ne.mpr ha
      rw [containsKey] at h
      simp only [List.any_cons, hb, Bool.false_or] at h
      simp [List.findIdx_cons, hb, Nat.succ_lt_succ (ih h)]

theorem find?_of_containsKey (l : NodeDict) (k : String) (h : containsKey l k = true) :
    ∃ p, List.find? (fun p => p.1 == k) l = some p := by
  induction l with
  | nil => simp [containsKey] at h
  | cons a t ih =>
    by_cases ha : a.1 = k
    · exact ⟨a, by simp only [List.find?, beq_iff_eq.mpr ha]⟩
    · have hb : (a.1 == k) = false := beq_eq_false_iff_ne.mpr ha
      rw [containsKey] at h
      simp only [List.any_cons, hb, Bool.false_or] at h
      obtain ⟨p, hp⟩ := ih h
      refine ⟨p, ?_⟩
      simp only [List.find?, hb, hp]

theorem lookupKey_append_left (l1 : NodeDict) (k : String)
    (h : containsKey l1 k = true) (l2 : NodeDict) :
    lookupKey (l1 ++ l2) k = lookupKey l1 k := by
  obtain ⟨p, hp⟩ := find?_of_containsKey l1 k h
  rw [lookupKey, lookupKey, List.find?_append, hp]
  rfl

theorem lookupKey_append_fresh (l : NodeDict) (k : String) (v : CodeNode)
    (h : containsKey l k = false) :
    lookupKey (l ++ [(k, v)]) k = some v := by
  rw [lookupKey]
  induction l with
  | nil => simp [List.find?_cons]
  | cons a t ih =>
    rw [containsKey] at h
    simp only [List.any_cons, Bool.or_eq_false_iff] at h
    rw [List.cons_append]
    simp only [List.find?, h.1]
    exact ih (by rw [containsKey]; exact h.2)

theorem lookupKey_append_other (l : NodeDict) (k : String) (v : CodeNode) (q : String)
    (hq : q ≠ k) :
    lookupKey (l ++ [(k, v)]) q = lookupKey l q := by
  rw [lookupKey, lookupKey]
  induction l with
  | nil =>
    rw [List.nil_append]
    simp only [List.find?, beq_eq_false_iff_ne.mpr (fun e => hq e.symm)]
  | cons a t ih =>
    by_cases ha : a.1 = q
    · have hb : (a.1 == q) = true := beq_iff_eq.mpr ha
      rw [List.cons_append]
      simp only [List.find?, hb]
    · have hb : (a.1 == q) = false := beq_eq_false_iff_ne.mpr ha
      rw [List.cons_append]
      simp only [List.find?, hb]
      exact ih

theorem lookupKey_mem (l : NodeDict) (k : String) (v : CodeNode)
    (h : lookupKey l k = some v) : (k, v) ∈ l := by
  induction l with
  | nil => simp [lookupKey] at h
  | cons a t ih =>
    by_cases hb : a.1 = k
    · rw [lookupKey] at h
      simp only [List.find?, beq_iff_eq.mpr hb] at h
      have : a = (k, v) := by
        obtain ⟨a1, a2⟩ := a
        simp only at hb
        have h2 : a2 = v := by simpa using h
        rw [hb, h2]
      rw [← this]
      exact List.mem_cons_self a t
    · rw [lookupKey] at h
      simp only [List.find?, beq_eq_false_iff_ne.mpr hb] at h
      exact List.mem_cons_of_mem a (ih h)

theorem containsKey_dictInsert_self (l : NodeDict) (k : String) (v : CodeNode) :
    containsKey (dictInsert l k v) k = true := by
  by_cases h : containsKey l k = true
  · rw [dictInsert_of_contains l k v h, containsKey_replace]
    exact h
  · rw [Bool.not_eq_true] at h
    rw [dictInsert_of_fresh l k v h, containsKey_append]
    simp [containsKey]

theorem containsKey_dictInsert_mono (l : NodeDict) (k : String) (v : CodeNode) (q : String)
    (h : containsKey l q = true) : containsKey (dictInsert l k v) q = true := by
  by_cases hc : containsKey l k = true
  · rw [dictInsert_of_contains l k v hc, containsKey_replace]
    exact h
  · rw [Bool.not_eq_true] at hc
    rw [dictInsert_of_fresh l k v hc, containsKey_append, h]
    rfl

theorem lookupKey_replace_self (l : NodeDict) (k : String) (v : CodeNode)
    (h : containsKey l k = true) :
    lookupKey (l.map (replaceEntry k v)) k = some v := by
  rw [lookupKey]
  induction l with
  | nil => simp [containsKey] at h
  | cons a t ih =>
    by_cases ha : a.1 = k
    · rw [List.map_cons, replaceEntry_of_eq k v a ha]
      simp [List.find?]
    · have hb : (a.1 == k) = false := beq_eq_false_iff_ne.mpr ha
      rw [containsKey] at h
      simp only [List.any_cons, hb, Bool.false_or] at h
      rw [List.map_cons, replaceEntry_of_ne k v a ha]
      simp only [List.find?, hb]
      exact ih h

theorem lookupKey_dictInsert_self (l : NodeDict) (k : String) (v : CodeNode) :
    lookupKey (dictInsert l k v) k = some v := by
  by_cases h : containsKey l k = true
  · rw [dictInsert_of_contains l k v h]
    exact lookupKey_replace_self l k v h
  · rw [Bool.not_eq_true] at h
    rw [dictInsert_of_fresh l k v h]
    exact lookupKey_append_fresh l k v h

theorem lookupKey_dictInsert_other (l : NodeDict) (k : String) (v : CodeNode) (q : String)
    (hq : q ≠ k) : lookupKey (dictInsert l k v) q = lookupKey l q := by
  by_cases h : containsKey l k = true
  · rw [dictInsert_of_contains l k v h]
    exact lookupKey_replace_other l k v q hq
  · rw [Bool.not_eq_true] at h
    rw [dictInsert_of_fresh l k v h]
    exact lookupKey_append_other l k v q hq

theorem idxOfKey_dictInsert_of_contains (l : NodeDict) (k : String) (v : CodeNode)
    (q : String) (h : containsKey l q = true) :
    idxOfKey (dictInsert l k v) q = idxOfKey l q := by
  by_cases hc : containsKey l k = true
  · rw [dictInsert_of_contains l k v hc]
    exact idxOfKey_replace l k v q
  · rw [Bool.not_eq_true] at hc
    rw [dictInsert_of_fresh l k v hc]
    exact idxOfKey_append_left l q h [(k, v)]

theorem nodupKeys_dictInsert (l : NodeDict) (k : String) (v : CodeNode)
    (h : (l.map (fun p => p.1)).Nodup) :
    ((dictInsert l k v).map (fun p => p.1)).Nodup := by
  by_cases hc : containsKey l k = true
  · rw [dictInsert_of_contains l k v hc, map_fst_replace]
    exact h
  · rw [Bool.not_eq_true] at hc
    rw [dictInsert_of_fresh l k v hc, List.map_append]
    have hk : k ∉ l.map (fun p => p.1) := (containsKey_false_iff l k).mp hc
    simp [List.nodup_append, h, hk]

theorem mem_dictInsert_elim (l : NodeDict) (k : String) (v : CodeNode)
    (p : String × CodeNode) (hp : p ∈ dictInsert l k v) :
    (p ∈ l ∧ ¬p.1 = k) ∨ p = (k, v) := by
  by_cases hc : containsKey l k = true
  · rw [dictInsert_of_contains l k v hc] at hp
    exact mem_replace l k v p hp
  · rw [Bool.not_eq_true] at hc
    rw [dictInsert_of_fresh l k v hc] at hp
    rcases List.mem_append.mp hp with h | h
    · refine Or.inl ⟨h, fun he => ?_⟩
      have : k ∈ l.map (fun p => p.1) := List.mem_map.mpr ⟨p, h, he⟩
      exact (containsKey_false_iff l k).mp hc this
    · exact Or.inr (List.mem_singleton.mp h)

theorem self_mem_dictInsert (l : NodeDict) (k : String) (v : CodeNode) :
    (k, v) ∈ dictInsert l k v :=
  lookupKey_mem (dictInsert l k v) k v (lookupKey_dictInsert_self l k v)

theorem mem_dictInsert_fresh_mono (l : NodeDict) (k : String) (v : CodeNode)
    (h : containsKey l k = false) (p : String × CodeNode) (hp : p ∈ l) :
    p ∈ dictInsert l k v := by
  rw [dictInsert_of_fresh l k v h]
  exact List.mem_append_left _ hp

theorem lastWriteVal_append (log : NodeDict) (k : String) (v : CodeNode) (q : String) :
    lastWriteVal (log ++ [(k, v)]) q = if q = k then some v else lastWriteVal log q := by
  by_cases h : q = k
  · subst h
    rw [if_pos rfl, lastWriteVal, List.filter_append]
    have hf : List.filter (fun p => p.1 == q) [(q, v)] = [(q, v)] := by simp
    rw [hf, List.getLast?_concat]
    rfl
  · rw [if_neg h, lastWriteVal, lastWriteVal, List.filter_append]
    have hf : List.filter (fun p => p.1 == q) [(k, v)] = [] := by
      simp [beq_eq_false_iff_ne.mpr (fun e => h e.symm)]
    rw [hf, List.append_nil]

theorem collapse_write (l : NodeDict) (log : NodeDict) (k : String) (v : CodeNode)
    (hc : ∀ q, lookupKey l q = lastWriteVal log q) :
    ∀ q, lookupKey (dictInsert l k v) q = lastWriteVal (log ++ [(k, v)]) q := by
  intro q
  rw [lastWriteVal_append]
  by_cases h : q = k
  · rw [h, if_pos rfl]
    exact lookupKey_dictInsert_self l k v
  · rw [if_neg h, lookupKey_dictInsert_other l k v q h]
    exact hc q

/-! ## String-shape lemmas -/

theorem charsPrefix_self_append (xs ys : List Char) : charsPrefix xs (xs ++ ys) = true := by
  induction xs with
  | nil => rfl
  | cons c t ih => simp [charsPrefix, ih]

theorem pyStartsWith_append (a b : String) : pyStartsWith (a ++ b) a = true := by
  rw [pyStartsWith]
  have : (a ++ b).toList = a.toList ++ b.toList := by
    simp [String.toList, String.data_append]
  rw [this]
  exact charsPrefix_self_append a.toList b.toList

theorem length_lt_append_colon (a nm : String) : a.length < (a ++ ":" ++ nm).length := by
  have h1 : (":" : String).length = 1 := rfl
  simp only [String.length_append]
  omega

theorem append_colon_ne_of_le (a nm fp : String) (h : fp.length ≤ a.length) :
    ¬(a ++ ":" ++ nm = fp) := by
  intro he
  have hl : (a ++ ":" ++ nm).length = fp.length := by rw [he]
  have h1 : (":" : String).length = 1 := rfl
  simp only [String.length_append] at hl
  omega

/-! ## CONTAINS-relationship bookkeeping -/

theorem containsRels_addRel_contains (st : VisitorState) (r : CodeRelationship)
    (h : r.type = RelationshipType.CONTAINS) :
    containsRels (addRel st r) = containsRels st ++ [r] := by
  rw [containsRels, containsRels, addRel, List.filter_append]
  simp [List.filter, h]

theorem containsRels_addRel_other (st : VisitorState) (r : CodeRelationship)
    (h : ¬r.type = RelationshipType.CONTAINS) :
    containsRels (addRel st r) = containsRels st := by
  rw [containsRels, containsRels, addRel, List.filter_append]
  have : (r.type == RelationshipType.CONTAINS) = false := by
    cases hr : r.type <;> simp_all
  simp [List.filter, this]

theorem containsRels_writeNode (st : VisitorState) (v : CodeNode) :
    containsRels (writeNode st v) = containsRels st := rfl

theorem containsRels_set_stack (st : VisitorState) (s : List String) :
    containsRels { st with scope_stack := s } = containsRels st := rfl

/-! ## Frame lemma: the traversal restores the scope stack -/

theorem importOne_scope_stack (fp : String) (ln : Nat) (st : VisitorState) (nm : String) :
    (importOne fp ln st nm).scope_stack = st.scope_stack := rfl

theorem importFold_scope_stack (fp : String) (ln : Nat) (names : List String)
    (st : VisitorState) :
    (names.foldl (importOne fp ln) st).scope_stack = st.scope_stack := by
  induction names generalizing st with
  | nil => rfl
  | cons nm rest ih =>
    rw [List.foldl_cons, ih, importOne_scope_stack]

theorem visitBody_scope_stack (fp : String) :
    ∀ b : PyBody, ∀ st : VisitorState, (visitBody fp b st).scope_stack = st.scope_stack := by
  intro b
  refine @PyBody.rec
    (fun s => ∀ st : VisitorState, (visitStmt fp s st).scope_stack = st.scope_stack)
    (fun b => ∀ st : VisitorState, (visitBody fp b st).scope_stack = st.scope_stack)
    ?_ ?_ ?_ ?_ ?_ ?_ ?_ b
  · intro name ln el body ihb st
    simp only [visitStmt]
    rw [ihb]
    rfl
  · intro name ln el body ihb st
    simp only [visitStmt]
    rw [ihb]
    rfl
  · intro names ln st
    simp only [visitStmt]
    exact importFold_scope_stack fp ln names _
  · intro module names ln st
    simp only [visitStmt]
    exact importFold_scope_stack fp ln _ _
  · intro children ihb st
    simp only [visitStmt]
    exact ihb _
  · intro st
    rfl
  · intro s rest ihs ihb st
    simp only [visitBody]
    rw [ihb, ihs]

theorem visitStmt_scope_stack (fp : String) (s : PyStmt) (st : VisitorState) :
    (visitStmt fp s st).scope_stack = st.scope_stack :=
  visitBody_scope_stack fp (PyBody.cons s PyBody.nil) st

/-! ## Invariant preservation -/

theorem headD_mem (l : List String) (h : l ≠ []) : l.headD "" ∈ l := by
  cases l with
  | nil => exact absurd rfl h
  | cons a t => exact List.mem_cons_self a t

theorem inv_step_child (fp : String) (fnode : CodeNode) (st : VisitorState)
    (hinv : visitorInv fp fnode st) (v : CodeNode)
    (hshape :
      (v.node_type = NodeType.CLASS ∧ v.id = fp ++ ":" ++ v.name) ∨
      (v.node_type = NodeType.FUNCTION ∧ v.id = fp ++ ":" ++ v.name) ∨
      (v.node_type = NodeType.METHOD ∧
        v.id = (st.scope_stack.headD "") ++ ":" ++ v.name ∧
        ∃ pv, lookupKey st.nodes (st.scope_stack.headD "") = some pv ∧
          pv.node_type = NodeType.CLASS)) :
    visitorInv fp fnode
      { nodes := dictInsert st.nodes v.id v
        relationships := st.relationships ++
          [{ source_id := st.scope_stack.headD "", target_id := v.id,
             type := RelationshipType.CONTAINS }]
        scope_stack := v.id :: st.scope_stack
        collision := st.collision || containsKey st.nodes v.id
        writeLog := st.writeLog ++ [(v.id, v)] } := by
  obtain ⟨hne, hkeys, hlen, hconn, hnodup, hclass, hfile, hcoll, hcond⟩ := hinv
  have hparent_mem : st.scope_stack.headD "" ∈ st.scope_stack := headD_mem _ hne
  have hparent_len : fp.length ≤ (st.scope_stack.headD "").length := by
    rcases hlen _ hparent_mem with h | h
    · rw [h]
    · exact Nat.le_of_lt h
  have hvid_len : fp.length < v.id.length := by
    rcases hshape with ⟨_, hid⟩ | ⟨_, hid⟩ | ⟨_, hid, _⟩
    · rw [hid]; exact length_lt_append_colon fp v.name
    · rw [hid]; exact length_lt_append_colon fp v.name
    · rw [hid]
      exact Nat.lt_of_le_of_lt hparent_len (length_lt_append_colon _ v.name)
  have hvid_ne_fp : ¬v.id = fp := by
    intro he
    rw [he] at hvid_len
    exact Nat.lt_irrefl _ hvid_len
  have hcr :
      containsRels
        { nodes := dictInsert st.nodes v.id v
          relationships := st.relationships ++
            [{ source_id := st.scope_stack.headD "", target_id := v.id,
               type := RelationshipType.CONTAINS }]
          scope_stack := v.id :: st.scope_stack
          collision := st.collision || containsKey st.nodes v.id
          writeLog := st.writeLog ++ [(v.id, v)] } =
        containsRels st ++
          [{ source_id := st.scope_stack.headD "", target_id := v.id,
             type := RelationshipType.CONTAINS }] := by
    rw [containsRels, containsRels]
    simp [List.filter_append, List.filter]
  refine ⟨by simp, ?_, ?_, ?_, ?_, ?_, ?_, ?_, ?_⟩
  · -- stack entries are keys
    intro s hs
    rcases List.mem_cons.mp hs with rfl | hs
    · exact containsKey_dictInsert_self st.nodes v.id v
    · exact containsKey_dictInsert_mono st.nodes v.id v s (hkeys s hs)
  · -- stack entries are fp or longer
    intro s hs
    rcases List.mem_cons.mp hs with rfl | hs
    · exact Or.inr hvid_len
    · exact hlen s hs
  · -- stack entries are fp or CONTAINS targets
    intro s hs
    rcases List.mem_cons.mp hs with rfl | hs
    · refine Or.inr
        ⟨{ source_id := st.scope_stack.headD "", target_id := v.id,
           type := RelationshipType.CONTAINS }, ?_, rfl⟩
      rw [hcr]
      exact List.mem_append_right _ (List.mem_singleton.mpr rfl)
    · rcases hconn s hs with h | ⟨q, hq, ht⟩
      · exact Or.inl h
      · refine Or.inr ⟨q, ?_, ht⟩
        rw [hcr]
        exact List.mem_append_left _ hq
  · -- keys nodup
    exact nodupKeys_dictInsert st.nodes v.id v hnodup
  · -- node classification
    intro p hp
    rcases mem_dictInsert_elim st.nodes v.id v p hp with ⟨hpl, _⟩ | rfl
    · exact hclass p hpl
    · refine ⟨rfl, ?_, ?_, ?_, ?_⟩
      · intro hft
        rcases hshape with ⟨ht, _⟩ | ⟨ht, _⟩ | ⟨ht, _, _⟩ <;>
          · rw [ht] at hft; exact absurd hft (by simp)
      · intro hct
        rcases hshape with ⟨_, hid⟩ | ⟨ht, _⟩ | ⟨ht, _, _⟩
        · exact hid
        · rw [ht] at hct; exact absurd hct (by simp)
        · rw [ht] at hct; exact absurd hct (by simp)
      · intro hft
        rcases hshape with ⟨ht, _⟩ | ⟨_, hid⟩ | ⟨ht, _, _⟩
        · rw [ht] at hft; exact absurd hft (by simp)
        · exact hid
        · rw [ht] at hft; exact absurd hft (by simp)
      · intro hit
        rcases hshape with ⟨ht, _⟩ | ⟨ht, _⟩ | ⟨ht, _, _⟩ <;>
          · rw [ht] at hit; exact absurd hit (by simp)
  · -- file entry intact
    intro hImp
    rw [lookupKey_dictInsert_other st.nodes v.id v fp (fun e => hvid_ne_fp e.symm)]
    exact hfile hImp
  · -- write-log collapse
    exact collapse_write st.nodes st.writeLog v.id v hcoll
  · -- collision-free facts
    intro hC
    rcases Bool.or_eq_false_iff.mp hC with ⟨hc0, hfresh⟩
    obtain ⟨htnd, hrels, hmeth⟩ := hcond hc0
    have hDI : dictInsert st.nodes v.id v = st.nodes ++ [(v.id, v)] :=
      dictInsert_of_fresh st.nodes v.id v hfresh
    refine ⟨?_, ?_, ?_⟩
    · -- CONTAINS targets distinct
      rw [hcr, List.map_append]
      rw [List.nodup_append]
      refine ⟨htnd, List.nodup_singleton _, ?_⟩
      intro a ha hb
      simp only [List.map_cons, List.map_nil, List.mem_singleton] at hb
      obtain ⟨r, hr, hrt⟩ := List.mem_map.mp ha
      have := (hrels r hr).2.1
      rw [hrt, hb] at this
      rw [this] at hfresh
      simp at hfresh
    · -- per-edge facts
      intro r hr
      rw [hcr] at hr
      rcases List.mem_append.mp hr with hrold | hrnew
      · obtain ⟨h1, h2, h3, h4, h5⟩ := hrels r hrold
        refine ⟨containsKey_dictInsert_mono _ _ _ _ h1,
                containsKey_dictInsert_mono _ _ _ _ h2, ?_, h4, ?_⟩
        · rw [hDI, idxOfKey_append_left _ _ h1, idxOfKey_append_left _ _ h2]
          exact h3
        · rcases h5 with h | ⟨q, hq, ht⟩
          · exact Or.inl h
          · refine Or.inr ⟨q, ?_, ht⟩
            rw [hcr]
            exact List.mem_append_left _ hq
      · rw [List.mem_singleton.mp hrnew]
        refine ⟨containsKey_dictInsert_mono _ _ _ _ (hkeys _ hparent_mem),
                containsKey_dictInsert_self _ _ _, ?_, hvid_len, ?_⟩
        · rw [hDI, idxOfKey_append_left _ _ (hkeys _ hparent_mem),
              idxOfKey_append_fresh _ _ _ hfresh]
          exact idxOfKey_lt_length _ _ (hkeys _ hparent_mem)
        · rcases hconn _ hparent_mem with h | ⟨q, hq, ht⟩
          · exact Or.inl h
          · refine Or.inr ⟨q, ?_, ht⟩
            rw [hcr]
            exact List.mem_append_left _ hq
    · -- METHOD entries
      intro p hp hmt
      rw [hDI] at hp
      rcases List.mem_append.mp hp with hpl | hpnew
      · obtain ⟨parent2, pv, hmem, hpc, hid, hrel⟩ := hmeth p hpl hmt
        refine ⟨parent2, pv, ?_, hpc, hid, List.mem_append_left _ hrel⟩
        rw [hDI]
        exact List.mem_append_left _ hmem
      · rw [List.mem_singleton.mp hpnew] at hmt ⊢
        rcases hshape with ⟨ht, _⟩ | ⟨ht, _⟩ | ⟨_, hid, pv, hlook, hpvc⟩
        · rw [ht] at hmt; exact absurd hmt (by simp)
        · rw [ht] at hmt; exact absurd hmt (by simp)
        · refine ⟨st.scope_stack.headD "", pv, ?_, hpvc, hid, ?_⟩
          · rw [hDI]
            exact List.mem_append_left _ (lookupKey_mem _ _ _ hlook)
          · exact List.mem_append_right _ (List.mem_singleton.mpr rfl)

theorem inv_step_import (fp : String) (fnode : CodeNode) (st : VisitorState)
    (hinv : visitorInv fp fnode st) (ln : Nat) (nm : String) :
    visitorInv fp fnode (importOne fp ln st nm) := by
  obtain ⟨hne, hkeys, hlen, hconn, hnodup, hclass, hfile, hcoll, hcond⟩ := hinv
  have hcr : containsRels (importOne fp ln st nm) = containsRels st := by
    rw [importOne, containsRels, containsRels]
    simp only [addRel, writeNode, List.filter_append, List.filter]
    show List.filter (fun r => r.type == RelationshipType.CONTAINS) st.relationships ++
        ([] : List CodeRelationship) =
      List.filter (fun r => r.type == RelationshipType.CONTAINS) st.relationships
    exact List.append_nil _
  show visitorInv fp fnode
    { nodes := dictInsert st.nodes ("import:" ++ nm)
        { id := "import:" ++ nm, node_type := NodeType.IMPORT, name := nm,
          start_line := ln, end_line := ln }
      relationships := st.relationships ++
        [{ source_id := fp, target_id := "import:" ++ nm,
           type := RelationshipType.IMPORTS }]
      scope_stack := st.scope_stack
      collision := st.collision || containsKey st.nodes ("import:" ++ nm)
      writeLog := st.writeLog ++
        [("import:" ++ nm,
          { id := "import:" ++ nm, node_type := NodeType.IMPORT, name := nm,
            start_line := ln, end_line := ln })] }
  rw [importOne, containsRels] at hcr
  simp only [addRel, writeNode] at hcr
  refine ⟨hne, ?_, hlen, ?_, ?_, ?_, ?_, ?_, ?_⟩
  · intro s hs
    exact containsKey_dictInsert_mono _ _ _ s (hkeys s hs)
  · intro s hs
    rcases hconn s hs with h | ⟨q, hq, ht⟩
    · exact Or.inl h
    · refine Or.inr ⟨q, ?_, ht⟩
      rw [containsRels]
      simp only []
      rw [show containsRels st = st.relationships.filter
            (fun r => r.type == RelationshipType.CONTAINS) from rfl] at hcr
      exact hcr ▸ hq
  · exact nodupKeys_dictInsert _ _ _ hnodup
  · intro p hp
    rcases mem_dictInsert_elim _ _ _ p hp with ⟨hpl, _⟩ | rfl
    · exact hclass p hpl
    · exact ⟨rfl, by intro h; exact absurd h (by simp),
        by intro h; exact absurd h (by simp),
        by intro h; exact absurd h (by simp),
        by intro _; rfl⟩
  · intro hImp
    have hni : ¬fp = "import:" ++ nm := by
      intro he
      have : pyStartsWith fp "import:" = true := by
        rw [he]
        exact pyStartsWith_append "import:" nm
      rw [this] at hImp
      exact absurd hImp (by simp)
    rw [lookupKey_dictInsert_other _ _ _ fp hni]
    exact hfile hImp
  · exact collapse_write st.nodes st.writeLog _ _ hcoll
  · intro hC
    rcases Bool.or_eq_false_iff.mp hC with ⟨hc0, hfresh⟩
    obtain ⟨htnd, hrels, hmeth⟩ := hcond hc0
    have hDI : dictInsert st.nodes ("import:" ++ nm)
        { id := "import:" ++ nm, node_type := NodeType.IMPORT, name := nm,
          start_line := ln, end_line := ln } =
        st.nodes ++ [("import:" ++ nm,
          { id := "import:" ++ nm, node_type := NodeType.IMPORT, name := nm,
            start_line := ln, end_line := ln })] :=
      dictInsert_of_fresh _ _ _ hfresh
    have hcr2 :
        List.filter (fun r => r.type == RelationshipType.CONTAINS)
          (st.relationships ++
            [{ source_id := fp, target_id := "import:" ++ nm,
               type := RelationshipType.IMPORTS }]) = containsRels st := by
      rw [containsRels, List.filter_append]
      simp only [List.filter]
      show List.filter (fun r => r.type == RelationshipType.CONTAINS) st.relationships ++
          ([] : List CodeRelationship) =
        List.filter (fun r => r.type == RelationshipType.CONTAINS) st.relationships
      exact List.append_nil _
    refine ⟨?_, ?_, ?_⟩
    · rw [containsRels]
      simp only []
      rw [hcr2]
      exact htnd
    · intro r hr
      rw [containsRels] at hr
      simp only [] at hr
      rw [hcr2] at hr
      obtain ⟨h1, h2, h3, h4, h5⟩ := hrels r hr
      refine ⟨containsKey_dictInsert_mono _ _ _ _ h1,
              containsKey_dictInsert_mono _ _ _ _ h2, ?_, h4, ?_⟩
      · rw [hDI, idxOfKey_append_left _ _ h1, idxOfKey_append_left _ _ h2]
        exact h3
      · rcases h5 with h | ⟨q, hq, ht⟩
        · exact Or.inl h
        · refine Or.inr ⟨q, ?_, ht⟩
          rw [containsRels]
          simp only []
          rw [hcr2]
          exact hq
    · intro p hp hmt
      rw [hDI] at hp
      rcases List.mem_append.mp hp with hpl | hpnew
      · obtain ⟨parent2, pv, hmem, hpc, hid, hrel⟩ := hmeth p hpl hmt
        refine ⟨parent2, pv, ?_, hpc, hid, List.mem_append_left _ hrel⟩
        rw [hDI]
        exact List.mem_append_left _ hmem
      · rw [List.mem_singleton.mp hpnew] at hmt
        exact absurd hmt (by simp)

theorem inv_fold_import (fp : String) (fnode : CodeNode) (ln : Nat) (names : List String) :
    ∀ st : VisitorState, visitorInv fp fnode st →
      visitorInv fp fnode (names.foldl (importOne fp ln) st) := by
  induction names with
  | nil => exact fun st h => h
  | cons nm rest ih =>
    intro st h
    rw [List.foldl_cons]
    exact ih _ (inv_step_import fp fnode st h ln nm)

theorem inv_pop (fp : String) (fnode : CodeNode) (st : VisitorState) (x : String)
    (s : List String) (hst : st.scope_stack = x :: s) (hs : s ≠ [])
    (hinv : visitorInv fp fnode st) :
    visitorInv fp fnode { st with scope_stack := s } := by
  obtain ⟨hne, hkeys, hlen, hconn, hnodup, hclass, hfile, hcoll, hcond⟩ := hinv
  have hsub : ∀ y, y ∈ s → y ∈ st.scope_stack := by
    intro y hy
    rw [hst]
    exact List.mem_cons_of_mem x hy
  exact ⟨hs, fun y hy => hkeys y (hsub y hy), fun y hy => hlen y (hsub y hy),
    fun y hy => hconn y (hsub y hy), hnodup, hclass, hfile, hcoll, hcond⟩

theorem visitBody_inv (fp : String) (fnode : CodeNode) :
    ∀ b : PyBody, ∀ st : VisitorState, visitorInv fp fnode st →
      visitorInv fp fnode (visitBody fp b st) := by
  intro b
  refine @PyBody.rec
    (fun s => ∀ st : VisitorState, visitorInv fp fnode st →
      visitorInv fp fnode (visitStmt fp s st))
    (fun b => ∀ st : VisitorState, visitorInv fp fnode st →
      visitorInv fp fnode (visitBody fp b st))
    ?_ ?_ ?_ ?_ ?_ ?_ ?_ b
  · intro name ln el body ihb st hinv
    have hcopy := hinv
    obtain ⟨hne, -, -, -, -, -, -, -, -⟩ := hcopy
    simp only [visitStmt]
    have h1 := inv_step_child fp fnode st hinv
      { id := fp ++ ":" ++ name, node_type := NodeType.CLASS, name := name,
        start_line := ln, end_line := el }
      (Or.inl ⟨rfl, rfl⟩)
    have h2 := ihb _ h1
    rw [visitBody_scope_stack]
    exact inv_pop fp fnode _ (fp ++ ":" ++ name) _ (by rw [visitBody_scope_stack]; rfl) hne h2
  · intro name ln el body ihb st hinv
    have hcopy := hinv
    obtain ⟨hne, -, -, -, -, -, -, -, -⟩ := hcopy
    simp only [visitStmt]
    by_cases hM : (match lookupKey st.nodes (st.scope_stack.headD "") with
      | some p => p.node_type == NodeType.CLASS
      | none => false) = true
    · have hex : ∃ pv, lookupKey st.nodes (st.scope_stack.headD "") = some pv ∧
          pv.node_type = NodeType.CLASS := by
        cases hL : lookupKey st.nodes (st.scope_stack.headD "") with
        | none => rw [hL] at hM; exact absurd hM (by simp)
        | some pv =>
          rw [hL] at hM
          exact ⟨pv, rfl, by simpa using hM⟩
      rw [hM]
      have h1 := inv_step_child fp fnode st hinv
        { id := st.scope_stack.headD "" ++ ":" ++ name, node_type := NodeType.METHOD,
          name := name, start_line := ln, end_line := el }
        (Or.inr (Or.inr ⟨rfl, rfl, hex⟩))
      have h2 := ihb _ h1
      rw [visitBody_scope_stack]
      exact inv_pop fp fnode _ (st.scope_stack.headD "" ++ ":" ++ name) _
        (by rw [visitBody_scope_stack]; rfl) hne h2
    · rw [Bool.not_eq_true] at hM
      rw [hM]
      have h1 := inv_step_child fp fnode st hinv
        { id := fp ++ ":" ++ name, node_type := NodeType.FUNCTION, name := name,
          start_line := ln, end_line := el }
        (Or.inr (Or.inl ⟨rfl, rfl⟩))
      have h2 := ihb _ h1
      rw [visitBody_scope_stack]
      exact inv_pop fp fnode _ (fp ++ ":" ++ name) _ (by rw [visitBody_scope_stack]; rfl) hne h2
  · intro names ln st hinv
    simp only [visitStmt]
    exact inv_fold_import fp fnode ln names _ hinv
  · intro module names ln st hinv
    simp only [visitStmt]
    exact inv_fold_import fp fnode ln _ _ hinv
  · intro children ihb st hinv
    simp only [visitStmt]
    exact ihb _ hinv
  · intro st hinv
    exact hinv
  · intro s rest ihs ihb st hinv
    simp only [visitBody]
    exact ihb _ (ihs _ hinv)

theorem visitorInv_init (fp src : String) :
    visitorInv fp (initFileNode fp src) (initVisitorState fp src) := by
  refine ⟨by simp [initVisitorState], ?_, ?_, ?_, ?_, ?_, ?_, ?_, ?_⟩
  · intro s hs
    rw [initVisitorState] at hs
    simp only [List.mem_singleton] at hs
    rw [hs, initVisitorState]
    simp [containsKey]
  · intro s hs
    rw [initVisitorState] at hs
    simp only [List.mem_singleton] at hs
    exact Or.inl hs
  · intro s hs
    rw [initVisitorState] at hs
    simp only [List.mem_singleton] at hs
    exact Or.inl hs
  · rw [initVisitorState]
    simp
  · intro p hp
    rw [initVisitorState] at hp
    simp only [List.mem_singleton] at hp
    rw [hp]
    refine ⟨rfl, fun _ => rfl, ?_, ?_, ?_⟩
    · intro h
      rw [initFileNode] at h
      exact absurd h (by simp)
    · intro h
      rw [initFileNode] at h
      exact absurd h (by simp)
    · intro h
      rw [initFileNode] at h
      exact absurd h (by simp)
  · intro _
    rw [initVisitorState, lookupKey]
    simp [List.find?]
  · intro k
    rw [initVisitorState]
    by_cases h : fp = k
    · rw [lookupKey, lastWriteVal]
      simp only [List.find?, List.filter, beq_iff_eq.mpr h]
      rfl
    · rw [lookupKey, lastWriteVal]
      simp only [List.find?, List.filter, beq_eq_false_iff_ne.mpr h]
      rfl
  · intro _
    refine ⟨?_, ?_, ?_⟩
    · rw [initVisitorState, containsRels]
      simp
    · intro r hr
      rw [initVisitorState, containsRels] at hr
      simp at hr
    · intro p hp hmt
      rw [initVisitorState] at hp
      simp only [List.mem_singleton] at hp
      rw [hp] at hmt
      rw [initFileNode] at hmt
      exact absurd hmt (by simp)

/-- The traversal invariant holds of every completed parse. -/
theorem runVisitor_inv (fp src : String) (tree : PyBody) :
    visitorInv fp (initFileNode fp src) (runVisitor fp src tree) :=
  visitBody_inv fp (initFileNode fp src) tree (initVisitorState fp src)
    (visitorInv_init fp src)

theorem filter_eq_singleton_of_mem {α : Type} (l : List α) (a : α) (pred : α → Bool)
    (hnd : l.Nodup) (ha : a ∈ l) (hpa : pred a = true)
    (huniq : ∀ p ∈ l, pred p = true → p = a) :
    l.filter pred = [a] := by
  induction l with
  | nil => cases ha
  | cons x t ih =>
    rcases List.mem_cons.mp ha with rfl | hat
    · have hta : List.filter pred t = [] := by
        rw [List.filter_eq_nil_iff]
        intro p hp hpp
        have he := huniq p (List.mem_cons_of_mem _ hp) (by simpa using hpp)
        rw [he] at hp
        exact (List.nodup_cons.mp hnd).1 hp
      simp only [List.filter, hpa, hta]
    · have hx : pred x = false := by
        by_cases hpx : pred x = true
        · have he := huniq x (List.mem_cons_self x t) hpx
          exact absurd (he ▸ hat) (List.nodup_cons.mp hnd).1
        · rw [Bool.not_eq_true] at hpx
          exact hpx
      simp only [List.filter, hx]
      exact ih (List.nodup_cons.mp hnd).2 hat
        (fun p hp hpp => huniq p (List.mem_cons_of_mem _ hp) hpp)

/-! ## Claim theorems -/

/-- C1: the reconciliation pass `backpopulate_missing_chunks` cannot repair a
vector store missing chunks for graph nodes persisted by `persist_graph`,
because `persist_graph` never stores a `file_path` property (`CodeNode` has no
such field), so the pass's `open(rec["file_path"])` fails and every missing
record is skipped.  Here: a graph store holding the K = 3 nodes of the demo
file (m = 2 of them CLASS/METHOD reconciliation candidates), an empty vector
store, and the backing file present on disk — yet the pass inserts nothing,
leaving both candidate ids uncovered, against the claim that all K ids end up
covered. -/
theorem C1_backpopulate_inserts_nothing :
    (demoGraph.nodes.filter isBackpopCandidate).length = 2 ∧
    (∀ sn ∈ demoGraph.nodes.filter isBackpopCandidate,
      propsGet sn.props "file_path" = none) ∧
    demoDisk demoFilePath = some demoSource ∧
    backpopulateMissingChunks demoDisk demoEmbed demoUuidGen demoGraph
      { chunks := [] } = { chunks := [] } :=
  ⟨by decide, by decide, by decide, by decide⟩

/-- C2: indexing the ten-line demo file (one class with one method) produces
exactly the claimed node set {FILE, CLASS, METHOD} and edge set
{CONTAINS(FILE→CLASS), CONTAINS(CLASS→METHOD)}, and the CLASS and METHOD nodes
are the two would-be embedding candidates — but `process_file` raises
`AttributeError` inside `sync_code_chunks_to_weaviate` (the candidate filter
mentions `NodeType.BLOCK`, which `graph_models.NodeType` does not define), so
zero chunks are inserted instead of the claimed two.  The graph is persisted
before the crash. -/
theorem C2_ten_line_scenario_crashes_before_chunks :
    (pySplitlines demoSource).length = 10 ∧
    demoParsed = Except.ok
      ([{ id := "app.py", node_type := NodeType.FILE, name := "app.py",
          start_line := 1, end_line := 10 },
        { id := "app.py:Greeter", node_type := NodeType.CLASS, name := "Greeter",
          start_line := 1, end_line := 3 },
        { id := "app.py:Greeter:greet", node_type := NodeType.METHOD, name := "greet",
          start_line := 2, end_line := 3 }],
       [{ source_id := "app.py", target_id := "app.py:Greeter",
          type := RelationshipType.CONTAINS },
        { source_id := "app.py:Greeter", target_id := "app.py:Greeter:greet",
          type := RelationshipType.CONTAINS }]) ∧
    (demoNodes.filter (fun n => n.node_type == NodeType.CLASS
        || n.node_type == NodeType.METHOD)).length = 2 ∧
    demoRun1.2 = Except.error nodeTypeBlockError ∧
    demoRun1.1.vector.chunks = [] ∧
    demoRun1.1.graph.nodes.length = 3 ∧
    demoRun1.1.graph.edges.length = 2 :=
  ⟨by decide, rfl, by decide, rfl, by decide, by decide, by decide⟩

/-- C5: running `process_file` twice on the unchanged demo file leaves the
graph store with the same node and edge count as one run (indeed the identical
store, by merge-on-id and merge-on-(source, target, type)); but the claim's
second half fails: chunk inserts are never reached, because every run raises
`AttributeError` at the `NodeType.BLOCK` lookup before the insert loop, so the
vector-store chunk count is trivially unchanged and duplicate chunks can never
arise through this code path. -/
theorem C5_double_index_graph_idempotent_but_no_chunks :
    demoRun2.1.graph.nodes.length = demoRun1.1.graph.nodes.length ∧
    demoRun2.1.graph.edges.length = demoRun1.1.graph.edges.length ∧
    demoRun2.1.graph = demoRun1.1.graph ∧
    demoRun1.1.vector.chunks.length = 0 ∧
    demoRun2.1.vector.chunks.length = 0 ∧
    demoRun1.2 = Except.error nodeTypeBlockError ∧
    demoRun2.2 = Except.error nodeTypeBlockError :=
  ⟨by decide, by decide, by decide, by decide, by decide, rfl, rfl⟩

/-- C3 (counterexample): parsing `class A:` containing a nested `class A:` in
file `f.py` gives both classes the id `f.py:A`, producing a CONTAINS self-loop
(`f.py:A → f.py:A`, a cycle) and two CONTAINS edges onto the same target from
distinct sources — so the CONTAINS edges of a single parse do not always form
a tree. -/
theorem C3_counterexample_shadowed_class :
    { source_id := "f.py:A", target_id := "f.py:A",
      type := RelationshipType.CONTAINS } ∈ shadowState.relationships ∧
    { source_id := "f.py", target_id := "f.py:A",
      type := RelationshipType.CONTAINS } ∈ shadowState.relationships ∧
    ("f.py" : String) ≠ "f.py:A" :=
  ⟨by decide, by decide, by decide⟩

/-- C3 (amended): for every parse in which no node id is generated twice (the
ghost `collision` flag of the run is false), the CONTAINS relationships form a
tree rooted at the FILE node: no id is the target of two CONTAINS edges
(targets are pairwise distinct), no edge targets the file node, every edge's
source is the file id or itself a CONTAINS target (connectedness to the
root), and every edge runs from an earlier-created node to a later-created
one (acyclicity, witnessed by the strictly increasing creation index). -/
theorem C3_containment_tree_amended (fp src : String) (tree : PyBody)
    (hfresh : (runVisitor fp src tree).collision = false) :
    ((containsRels (runVisitor fp src tree)).map (fun r => r.target_id)).Nodup ∧
    ∀ r ∈ containsRels (runVisitor fp src tree),
      r.target_id ≠ fp ∧
      (r.source_id = fp ∨
        ∃ q ∈ containsRels (runVisitor fp src tree), q.target_id = r.source_id) ∧
      idxOfKey (runVisitor fp src tree).nodes r.source_id <
        idxOfKey (runVisitor fp src tree).nodes r.target_id := by
  obtain ⟨-, -, -, -, -, -, -, -, hcond⟩ := runVisitor_inv fp src tree
  obtain ⟨htnd, hrels, -⟩ := hcond hfresh
  refine ⟨htnd, ?_⟩
  intro r hr
  obtain ⟨-, -, h3, h4, h5⟩ := hrels r hr
  refine ⟨?_, h5, h3⟩
  intro he
  rw [he] at h4
  exact Nat.lt_irrefl _ h4

/-- Witness for C3 (amended): a collision-free file with imports, a class, a
method and a function satisfies the hypothesis and hence the tree shape. -/
theorem C3_containment_tree_amended_witness :
    (runVisitor "pkg/mod.py" richSource richAst).collision = false ∧
    (((containsRels (runVisitor "pkg/mod.py" richSource richAst)).map
        (fun r => r.target_id)).Nodup ∧
      ∀ r ∈ containsRels (runVisitor "pkg/mod.py" richSource richAst),
        r.target_id ≠ "pkg/mod.py" ∧
        (r.source_id = "pkg/mod.py" ∨
          ∃ q ∈ containsRels (runVisitor "pkg/mod.py" richSource richAst),
            q.target_id = r.source_id) ∧
        idxOfKey (runVisitor "pkg/mod.py" richSource richAst).nodes r.source_id <
          idxOfKey (runVisitor "pkg/mod.py" richSource richAst).nodes r.target_id) :=
  ⟨by decide, C3_containment_tree_amended "pkg/mod.py" richSource richAst (by decide)⟩

/-- C4 (counterexample): in `class A:` containing `class B:`, the nested class
gets id `f.py:B` — file-path prefixed — although the scope-stack top at its
creation is `f.py:A` (the source of its CONTAINS edge); the claimed id
`<parent_id>:<name> = f.py:A:B` is not used. -/
theorem C4_counterexample_nested_class_id :
    containsKey nestedState.nodes "f.py:B" = true ∧
    { source_id := "f.py:A", target_id := "f.py:B",
      type := RelationshipType.CONTAINS } ∈ nestedState.relationships ∧
    containsKey nestedState.nodes ("f.py:A" ++ ":" ++ "B") = false :=
  ⟨by decide, by decide, by decide⟩

/-- C4 (amended): node ids are constructed as the code does it: the FILE node's
id is the file path; CLASS and (plain) FUNCTION ids are
`<file_path>:<name>` regardless of nesting; IMPORT ids are
`import:<name>` where the node's name already carries the dotted module path;
and only METHOD ids are `<parent_id>:<name>`, where the parent is the CLASS
node the method's CONTAINS edge comes from (in a parse without id
collisions). -/
theorem C4_node_id_construction_amended (fp src : String) (tree : PyBody)
    (hfresh : (runVisitor fp src tree).collision = false) :
    ∀ p ∈ (runVisitor fp src tree).nodes,
      p.2.id = p.1 ∧
      (p.2.node_type = NodeType.FILE → p.1 = fp) ∧
      (p.2.node_type = NodeType.CLASS → p.1 = fp ++ ":" ++ p.2.name) ∧
      (p.2.node_type = NodeType.FUNCTION → p.1 = fp ++ ":" ++ p.2.name) ∧
      (p.2.node_type = NodeType.IMPORT → p.1 = "import:" ++ p.2.name) ∧
      (p.2.node_type = NodeType.METHOD →
        ∃ parent pv, (parent, pv) ∈ (runVisitor fp src tree).nodes ∧
          pv.node_type = NodeType.CLASS ∧
          p.1 = parent ++ ":" ++ p.2.name ∧
          { source_id := parent, target_id := p.1,
            type := RelationshipType.CONTAINS } ∈ (runVisitor fp src tree).relationships) := by
  obtain ⟨-, -, -, -, -, hclass, -, -, hcond⟩ := runVisitor_inv fp src tree
  obtain ⟨-, -, hmeth⟩ := hcond hfresh
  intro p hp
  obtain ⟨hid, hf, hc, hfn, him⟩ := hclass p hp
  exact ⟨hid, fun h => congrArg Prod.fst (hf h), hc, hfn, him, hmeth p hp⟩

/-- Witness for C4 (amended) on the collision-free rich file. -/
theorem C4_node_id_construction_amended_witness :
    (runVisitor "pkg/mod.py" richSource richAst).collision = false ∧
    (∀ p ∈ (runVisitor "pkg/mod.py" richSource richAst).nodes,
      p.2.id = p.1 ∧
      (p.2.node_type = NodeType.FILE → p.1 = "pkg/mod.py") ∧
      (p.2.node_type = NodeType.CLASS → p.1 = "pkg/mod.py" ++ ":" ++ p.2.name) ∧
      (p.2.node_type = NodeType.FUNCTION → p.1 = "pkg/mod.py" ++ ":" ++ p.2.name) ∧
      (p.2.node_type = NodeType.IMPORT → p.1 = "import:" ++ p.2.name) ∧
      (p.2.node_type = NodeType.METHOD →
        ∃ parent pv, (parent, pv) ∈ (runVisitor "pkg/mod.py" richSource richAst).nodes ∧
          pv.node_type = NodeType.CLASS ∧
          p.1 = parent ++ ":" ++ p.2.name ∧
          { source_id := parent, target_id := p.1,
            type := RelationshipType.CONTAINS } ∈
              (runVisitor "pkg/mod.py" richSource richAst).relationships)) :=
  ⟨by decide, C4_node_id_construction_amended "pkg/mod.py" richSource richAst (by decide)⟩

/-- C6: for source that is not valid Python, `ast.parse` reports the failure
with a `SyntaxError` (CPython's contract, resource exhaustion aside;
`IndentationError` and `TabError` are subclasses), the parser's `except
SyntaxError` clause catches it, and `PythonParser.parse` returns `([], [])`
without letting any exception past the parser boundary; no partial node or
relationship set is produced. -/
theorem C6_syntax_error_yields_empty_result
    (astOf : String → Except PyExc PyBody)
    (hcontract : ∀ s : String, (∀ t, astOf s ≠ Except.ok t) →
      ∃ m, astOf s = Except.error (PyExc.synError m))
    (fp src : String) (hinvalid : ∀ t, astOf src ≠ Except.ok t) :
    pythonParserParse fp src (astOf src) = Except.ok ([], []) := by
  obtain ⟨m, hm⟩ := hcontract src hinvalid
  rw [hm]
  rfl

/-- Witness for C6: an oracle rejecting everything with a `SyntaxError`
satisfies the contract, and the parser returns the empty result for a
malformed source. -/
theorem C6_syntax_error_yields_empty_result_witness :
    (∀ s : String, (∀ t, badSynOracle s ≠ Except.ok t) →
      ∃ m, badSynOracle s = Except.error (PyExc.synError m)) ∧
    (∀ t, badSynOracle "def f(:" ≠ Except.ok t) ∧
    pythonParserParse "x.py" "def f(:" (badSynOracle "def f(:") = Except.ok ([], []) :=
  ⟨fun _ _ => ⟨"invalid syntax", rfl⟩,
   fun _ h => Except.noConfusion h,
   C6_syntax_error_yields_empty_result badSynOracle
     (fun _ _ => ⟨"invalid syntax", rfl⟩) "x.py" "def f(:"
     (fun _ h => Except.noConfusion h)⟩

/-- C7 (counterexample): the default registry returns no parser for `.ts`,
even though the TypeScript plugin would accept it — the plugin is simply never
registered (`ParserRegistry.__init__` instantiates only `PythonParser`). -/
theorem C7_counterexample_ts_unrouted :
    getParserForExt ".ts" = none ∧ typescriptSupportsExtension ".ts" = true :=
  ⟨by decide, by decide⟩

/-- C7 (amended): the default registry holds only the Python plugin, and
`get_parser_for_ext` returns the first (here: only) plugin whose
`supports_extension` matches: a parser for `.py` (case-insensitively), and no
parser for `.ts`, `.tsx`, `.js`, `.jsx` — whose extensions the unregistered
TypeScript plugin would support — nor for `.rb`, which no plugin supports;
callers treat `none` as skip-without-error. -/
theorem C7_registry_routing_amended :
    getParserForExt ".py" = some ParserPlugin.python ∧
    getParserForExt ".PY" = some ParserPlugin.python ∧
    getParserForExt ".ts" = none ∧
    getParserForExt ".tsx" = none ∧
    getParserForExt ".js" = none ∧
    getParserForExt ".jsx" = none ∧
    getParserForExt ".rb" = none ∧
    typescriptSupportsExtension ".ts" = true ∧
    typescriptSupportsExtension ".tsx" = true ∧
    typescriptSupportsExtension ".js" = true ∧
    typescriptSupportsExtension ".jsx" = true ∧
    typescriptSupportsExtension ".rb" = false :=
  ⟨by decide, by decide, by decide, by decide, by decide, by decide, by decide,
   by decide, by decide, by decide, by decide, by decide⟩

/-- C8 (counterexample): `LocalHFEmbedder.embed` has no exception handling
around `self.model.encode`, so a provider-level failure propagates to the
caller instead of yielding empty vectors — refuting the claim that every
provider's `embed` never raises. -/
theorem C8_counterexample_localhf_raises :
    localHFEmbed (fun _ => Except.error "RuntimeError: model failure") ["hello"] =
      Except.error "RuntimeError: model failure" := rfl

/-- C8 (amended): `GeminiEmbedder.embed` honours the claimed contract — its
catch-all `except` turns any provider failure into one empty vector per input,
and on success the API returns one embedding per content in order, so the
result always has positional correspondence with the input and the call never
raises (it is a total function here).  `LocalHFEmbedder.embed` keeps positional
correspondence on success but propagates provider failures. -/
theorem C8_embed_contract_amended
    (api encode : List String → Except String (List EmbedVector))
    (texts : List String)
    (hapi : ∀ r, api texts = Except.ok r → r.length = texts.length)
    (henc : ∀ r, encode texts = Except.ok r → r.length = texts.length) :
    (geminiEmbed api texts).length = texts.length ∧
    (∀ r, localHFEmbed encode texts = Except.ok r → r.length = texts.length) := by
  constructor
  · rw [geminiEmbed]
    cases h : api texts with
    | ok r => exact hapi r h
    | error e => simp
  · intro r hr
    exact henc r hr

/-- Witness for C8 (amended): with a failing remote API and a failing local
model, Gemini still answers with one (empty) vector per input while the
hypotheses hold vacuously. -/
theorem C8_embed_contract_amended_witness :
    (∀ r, (fun _ : List String => (Except.error "quota" : Except String (List EmbedVector))) ["a", "b"] = Except.ok r → r.length = (["a", "b"] : List String).length) ∧
    (geminiEmbed (fun _ => Except.error "quota") ["a", "b"]).length = 2 ∧
    (∀ r, localHFEmbed (fun _ => Except.error "down") ["a", "b"] = Except.ok r →
      r.length = 2) :=
  ⟨fun _ h => Except.noConfusion h,
   (C8_embed_contract_amended (fun _ => Except.error "quota")
     (fun _ => Except.error "down") ["a", "b"]
     (fun _ h => Except.noConfusion h) (fun _ h => Except.noConfusion h)).1,
   (C8_embed_contract_amended (fun _ => Except.error "quota")
     (fun _ => Except.error "down") ["a", "b"]
     (fun _ h => Except.noConfusion h) (fun _ h => Except.noConfusion h)).2⟩

/-- C9: a filesystem event whose path is a directory, or whose path has a
component (or whose full normalised path) matching a configured ignore
pattern, makes both `on_modified` and `on_created` return before any parser
lookup: no action — no registry query, no file read, no dispatch — is
performed. -/
theorem C9_watcher_ignores_before_parser_lookup (patterns : List String)
    (event : FsEvent)
    (h : event.is_directory = true ∨
      (∃ part ∈ pathPartsPy event.src_path, ∃ pat ∈ patterns,
        fnmatchPy part pat = true) ∨
      (∃ pat ∈ patterns, fnmatchPy (pathStrPy event.src_path) pat = true)) :
    onModified patterns event = [] ∧ onCreated patterns event = [] := by
  have key : handlerActions patterns event = [] := by
    rcases h with hd | hig | hig
    · rw [handlerActions, if_pos hd]
    · have hi : shouldIgnorePath patterns event.src_path = true := by
        rw [shouldIgnorePath]
        obtain ⟨part, hpart, pat, hpat, hm⟩ := hig
        have : (pathPartsPy event.src_path).any
            (fun part => patterns.any (fun pat => fnmatchPy part pat)) = true :=
          List.any_eq_true.mpr ⟨part, hpart, List.any_eq_true.mpr ⟨pat, hpat, hm⟩⟩
        rw [this]
        rfl
      by_cases hd : event.is_directory = true
      · rw [handlerActions, if_pos hd]
      · rw [handlerActions, if_neg hd, if_pos hi]
    · have hi : shouldIgnorePath patterns event.src_path = true := by
        rw [shouldIgnorePath]
        obtain ⟨pat, hpat, hm⟩ := hig
        have : patterns.any
            (fun pat => fnmatchPy (pathStrPy event.src_path) pat) = true :=
          List.any_eq_true.mpr ⟨pat, hpat, hm⟩
        rw [this]
        simp
      by_cases hd : event.is_directory = true
      · rw [handlerActions, if_pos hd]
      · rw [handlerActions, if_neg hd, if_pos hi]
  exact ⟨key, key⟩

/-- Witness for C9: a modify/create event under `node_modules` is dropped with
no parser lookup, file read or dispatch. -/
theorem C9_watcher_ignores_witness :
    (∃ part ∈ pathPartsPy "/repo/node_modules/pkg/index.py",
      ∃ pat ∈ DEFAULT_IGNORE_PATTERNS, fnmatchPy part pat = true) ∧
    onModified DEFAULT_IGNORE_PATTERNS
      { src_path := "/repo/node_modules/pkg/index.py", is_directory := false } = [] ∧
    onCreated DEFAULT_IGNORE_PATTERNS
      { src_path := "/repo/node_modules/pkg/index.py", is_directory := false } = [] :=
  ⟨by decide,
   (C9_watcher_ignores_before_parser_lookup DEFAULT_IGNORE_PATTERNS
     { src_path := "/repo/node_modules/pkg/index.py", is_directory := false }
     (Or.inr (Or.inl (by decide)))).1,
   (C9_watcher_ignores_before_parser_lookup DEFAULT_IGNORE_PATTERNS
     { src_path := "/repo/node_modules/pkg/index.py", is_directory := false }
     (Or.inr (Or.inl (by decide)))).2⟩

/-- C10 (counterexample): calling the parser with file path `import:x` on the
source `import x` makes the import node's id collide with the file id:
the import write replaces the FILE entry, and the successful parse returns a
single IMPORT node and no FILE node at all — so a successful parse does not
always contain exactly one FILE node. -/
theorem C10_counterexample_import_replaces_file_node :
    pythonParserParse importCollidePath importCollideSource
        (Except.ok importCollideAst) =
      Except.ok
        ([{ id := "import:x", node_type := NodeType.IMPORT, name := "x",
            start_line := 1, end_line := 1 }],
         [{ source_id := "import:x", target_id := "import:x",
            type := RelationshipType.IMPORTS }]) ∧
    ((runVisitor importCollidePath importCollideSource importCollideAst).nodes.filter
      (fun p => p.2.node_type == NodeType.FILE)) = [] :=
  ⟨rfl, by decide⟩

/-- C10 (amended): every successful parse returns nodes with pairwise distinct
ids, and the stored value at each id is exactly the last construct written to
that id (dictionary overwrite semantics, stated against the chronological
write log); provided the file path does not begin with `import:` — so that
no import id can collide with the file id — the node list contains exactly one
FILE node, keyed by the file path, with `start_line` 1 and `end_line` equal to
the number of source lines. -/
theorem C10_parse_output_amended (fp src : String) (tree : PyBody)
    (hImp : pyStartsWith fp "import:" = false) :
    ((runVisitor fp src tree).nodes.map (fun p => p.1)).Nodup ∧
    ((runVisitor fp src tree).nodes.filter
        (fun p => p.2.node_type == NodeType.FILE)) = [(fp, initFileNode fp src)] ∧
    (initFileNode fp src).id = fp ∧
    (initFileNode fp src).start_line = 1 ∧
    (initFileNode fp src).end_line = (pySplitlines src).length ∧
    (∀ k, lookupKey (runVisitor fp src tree).nodes k =
      lastWriteVal (runVisitor fp src tree).writeLog k) := by
  obtain ⟨-, -, -, -, hnodup, hclass, hfile, hcoll, -⟩ := runVisitor_inv fp src tree
  refine ⟨hnodup, ?_, rfl, rfl, rfl, hcoll⟩
  have hmem : (fp, initFileNode fp src) ∈ (runVisitor fp src tree).nodes :=
    lookupKey_mem _ _ _ (hfile hImp)
  refine filter_eq_singleton_of_mem _ _ _ (hnodup.of_map _) hmem (by simp [initFileNode]) ?_
  intro p hp hpred
  exact (hclass p hp).2.1 (by simpa using hpred)

/-- Witness for C10 (amended) on the rich file, whose path does not start with
`import:`. -/
theorem C10_parse_output_amended_witness :
    pyStartsWith "pkg/mod.py" "import:" = false ∧
    (((runVisitor "pkg/mod.py" richSource richAst).nodes.map (fun p => p.1)).Nodup ∧
      ((runVisitor "pkg/mod.py" richSource richAst).nodes.filter
          (fun p => p.2.node_type == NodeType.FILE)) =
        [("pkg/mod.py", initFileNode "pkg/mod.py" richSource)] ∧
      (initFileNode "pkg/mod.py" richSource).id = "pkg/mod.py" ∧
      (initFileNode "pkg/mod.py" richSource).start_line = 1 ∧
      (initFileNode "pkg/mod.py" richSource).end_line =
        (pySplitlines richSource).length ∧
      (∀ k, lookupKey (runVisitor "pkg/mod.py" richSource richAst).nodes k =
        lastWriteVal (runVisitor "pkg/mod.py" richSource richAst).writeLog k)) :=
  ⟨by decide, C10_parse_output_amended "pkg/mod.py" richSource richAst (by decide)⟩
